import Mathlib

/-!
Shallow embedding of `generate_random_inserts.py`: a schema-directory driven
random INSERT/JSON generator.  The Python program's process-wide random source
(`random`, plus the `faker` string/date helpers) is modelled as an explicit
stream of natural numbers (`PyRand`); each primitive draw consumes one stream
element, and `randint(0, m)` is modelled as the stream head reduced mod `m+1`,
which is the standard surjective embedding of a uniform draw on `[0, m]`.
All string scanning from the source (`str.strip`, `str.lower`, `str.split`,
`str.replace`, substring tests, and the two regexes) is re-expressed as
structurally recursive functions over `List Char`, so every definition is
executable and concrete runs evaluate inside the kernel.
-/

/-- The process-wide random source: an infinite stream of naturals. -/
abbrev PyRand := Nat → Nat

/-- One primitive draw: `random.randint(0, maxVal)` — the stream head mod
`maxVal + 1`, consuming one stream element. -/
def randint (s : PyRand) (maxVal : Nat) : Nat × PyRand :=
  (s 0 % (maxVal + 1), fun i => s (i + 1))

/-! ### Character and string primitives (Python `str` methods over `List Char`) -/
/-- Python `str.isspace`-style whitespace used by `strip`. -/
def isSpaceC (c : Char) : Bool :=
  c = ' ' || c = '\t' || c = '\n' || c = '\r'

/-- Regex `\w`: ASCII letters, digits and underscore. -/
def isWordChar (c : Char) : Bool :=
  ('a' ≤ c && c ≤ 'z') || ('A' ≤ c && c ≤ 'Z') || ('0' ≤ c && c ≤ '9') || c = '_'

/-- ASCII `str.lower` on one character. -/
def lowerChar (c : Char) : Char :=
  if 'A' ≤ c && c ≤ 'Z' then Char.ofNat (c.toNat + 32) else c

/-- ASCII `str.lower`. -/
def toLowerL (l : List Char) : List Char := l.map lowerChar

/-- Python `str.strip` (both ends). -/
def trimL (l : List Char) : List Char :=
  ((l.dropWhile isSpaceC).reverse.dropWhile isSpaceC).reverse

/-- Python `str.rstrip(',')`. -/
def rstripComma (l : List Char) : List Char :=
  (l.reverse.dropWhile (· = ',')).reverse

/-- Python `str.startswith` for one pattern. -/
def listStartsWith : List Char → List Char → Bool
  | _, [] => true
  | [], _ :: _ => false
  | c :: t, p :: q => c = p && listStartsWith t q

/-- Python `str.endswith`. -/
def listEndsWith (l p : List Char) : Bool :=
  listStartsWith l.reverse p.reverse

/-- Python `pat in s` substring test. -/
def containsSub (l : List Char) (p : List Char) : Bool :=
  match l with
  | [] => listStartsWith [] p
  | _ :: t => listStartsWith l p || containsSub t p

/-- Python `str.split(sep)` for a one-character separator (the source only
splits on `','` and `'='`). -/
def splitChar (sep : Char) : List Char → List (List Char)
  | [] => [[]]
  | c :: t =>
    match splitChar sep t with
    | [] => [[c]]
    | h :: rest => if c = sep then [] :: h :: rest else (c :: h) :: rest

/-- Python `str.replace(pat, rep)` (non-overlapping, left to right): the
`skip` counter threads the "characters still owed to the previous match"
state so the recursion stays structural. -/
def replGo (pat rep : List Char) : Nat → List Char → List Char
  | _ + 1, [] => []
  | skip + 1, _ :: t => replGo pat rep skip t
  | 0, [] => []
  | 0, c :: t =>
    if listStartsWith (c :: t) pat then
      rep ++ replGo pat rep (pat.length - 1) t
    else
      c :: replGo pat rep 0 t

/-- Python `str.replace(pat, rep)` for nonempty `pat`. -/
def replaceSub (pat rep l : List Char) : List Char := replGo pat rep 0 l

/-- Substring test on `String`s. -/
def containsStr (s pat : String) : Bool := containsSub s.data pat.data

/-- Python `str.strip` on `String`s. -/
def stripS (s : String) : String := String.mk (trimL s.data)

/-- Python `int(text)` restricted to the digit strings the schema regex can
produce (the only strings the source ever converts). -/
def pyNat? (l : List Char) : Option Nat :=
  let l := trimL l
  if l ≠ [] && l.all Char.isDigit then
    some (l.foldl (fun a c => a * 10 + (c.toNat - 48)) 0)
  else
    none

/-! ### Decimal digit rendering (Python `str` of `int` / `Decimal`) -/
/-- Digit list of a natural number, fuel-driven so it reduces in the kernel. -/
def natCharsGo : Nat → Nat → List Char → List Char
  | 0, n, acc => Nat.digitChar (n % 10) :: acc
  | f + 1, n, acc =>
    if n < 10 then Nat.digitChar n :: acc
    else natCharsGo f (n / 10) (Nat.digitChar (n % 10) :: acc)

/-- Decimal digit list of a natural number (`str(n)` in Python). -/
def natChars (n : Nat) : List Char := natCharsGo n n []

/-- Proof-friendly well-founded twin of `natChars`. -/
def natDigitsList (n : Nat) : List Char :=
  if h : n < 10 then [Nat.digitChar n]
  else natDigitsList (n / 10) ++ [Nat.digitChar (n % 10)]
  termination_by n
  decreasing_by exact Nat.div_lt_self (by omega) (by omega)

/-! ### Values (the Python value universe reachable by `generate_random`) -/
/-- Generated values.  `vfloat` stores `random.uniform(0, 1_000_000)` in
millionths (a rational in `[0, 10^6]`); `vdecimal w f sc` is the exact
`Decimal` `w + f / 10^sc` carrying scale `sc`. -/
inductive Value where
  | vnull : Value
  | vbool : Bool → Value
  | vint : Int → Value
  | vfloat : Nat → Value
  | vdecimal : Nat → Nat → Nat → Value
  | vdatetime : Nat → Nat → Nat → Nat → Nat → Nat → Value
  | vdate : Nat → Nat → Nat → Value
  | vtime : Nat → Nat → Nat → Value
  | vstr : String → Value
  deriving DecidableEq, Repr

/-- `str(n)` for a Python int. -/
def intStr (i : Int) : List Char :=
  if i < 0 then '-' :: natChars i.natAbs else natChars i.toNat

/-- Digit text of the value `w + f / 10^sc` with the fractional field
zero-padded to exactly `sc` digits.  This is a digits-and-point rendering of
the generated decimal used by the literal formatter; it coincides with
Python's `str(Decimal)` whenever the fraction has no trailing zeros, but not
in general — the exact `str(Decimal)` (which strips the fraction's trailing
zeros) is `pyDecChars` below, which the decimal-shape theorem uses. -/
def decimalChars (w f sc : Nat) : List Char :=
  match sc with
  | 0 => natChars w
  | n + 1 => natChars w ++ '.' :: (List.replicate (n + 1 - (natChars f).length) '0' ++ natChars f)

/-- Strip trailing zeros: `(stripZeros fuel n) = (r, z)` with `n = r * 10^z`
and `10` not dividing `r` (for `0 < n ≤ fuel`). -/
def stripZeros : Nat → Nat → Nat × Nat
  | 0, n => (n, 0)
  | fuel + 1, n =>
    if n % 10 = 0 ∧ n ≠ 0 then
      ((stripZeros fuel (n / 10)).1, (stripZeros fuel (n / 10)).2 + 1)
    else (n, 0)

def fracStrip (f : Nat) : Nat × Nat := stripZeros f f

/-- The exact `Decimal` computed by `Decimal(w) + Decimal(f)/Decimal(10)**sc`
as a (coefficient, negated exponent) pair: the division's exact quotient has
its trailing zeros stripped toward the ideal exponent 0 (so `f = r·10^z`
contributes coefficient `r` at exponent `z - sc`, and `f = 0` contributes
exponent 0), and the exact addition keeps the smaller exponent. -/
def decCoeffExp (w f sc : Nat) : Nat × Nat :=
  if sc = 0 ∨ f = 0 then (w, 0)
  else
    (w * 10 ^ (sc - (fracStrip f).2) + (fracStrip f).1, sc - (fracStrip f).2)

/-- `Decimal.__str__` for a nonnegative value with coefficient `c` and
exponent `-e`: positional text when `e = 0` or the adjusted exponent
`(digits - 1) - e` is at least `-6`, scientific notation otherwise. -/
def decStrChars (c e : Nat) : List Char :=
  if e = 0 then natChars c
  else if e ≤ (natChars c).length + 5 then
    if e < (natChars c).length then
      (natChars c).take ((natChars c).length - e) ++ '.' :: (natChars c).drop ((natChars c).length - e)
    else
      '0' :: '.' :: (List.replicate (e - (natChars c).length) '0' ++ natChars c)
  else
    match natChars c with
    | [] => []
    | d0 :: rest =>
      d0 :: ((if rest = [] then [] else '.' :: rest) ++
        'E' :: '-' :: natChars (e + 1 - (natChars c).length))

/-- `str(Decimal(w) + Decimal(f)/Decimal(10)**sc)` — faithful to CPython's
default 28-digit context as long as the coefficient stays within 28 digits
(guaranteed when the declared precision is at most 28, which the
decimal-shape theorem assumes; the arithmetic itself is exact there, so no
context rounding occurs). -/
def pyDecChars (w f sc : Nat) : List Char :=
  decStrChars (decCoeffExp w f sc).1 (decCoeffExp w f sc).2

/-- Digit text of the modelled float (millionths) with six fractional
digits.  Python's `str(float)` prints the shortest round-tripping repr
instead, so the exact text differs; only the bare (unquoted,
digits-and-point) shape is relied on by the formatting claim. -/
def floatChars (micro : Nat) : List Char :=
  natChars (micro / 1000000) ++ '.' :: (List.replicate (6 - (natChars (micro % 1000000)).length) '0' ++ natChars (micro % 1000000))

/-- Zero-padded fixed-width decimal field (`%02d` / `%04d`). -/
def padNat (w n : Nat) : List Char :=
  List.replicate (w - (natChars n).length) '0' ++ natChars n

/-- `date.isoformat()`: `YYYY-MM-DD`. -/
def isoDateChars (y mo d : Nat) : List Char :=
  padNat 4 y ++ '-' :: padNat 2 mo ++ '-' :: padNat 2 d

/-- `time.isoformat(timespec='seconds')`: `HH:MM:SS`. -/
def isoTimeChars (h mi se : Nat) : List Char :=
  padNat 2 h ++ ':' :: padNat 2 mi ++ ':' :: padNat 2 se

/-- Escape every single quote as two (`str.replace("'", "''")`). -/
def escQuotes : List Char → List Char
  | [] => []
  | c :: t => if c = '\'' then '\'' :: '\'' :: escQuotes t else c :: escQuotes t

/-- `to_sql_literal` from the source: the `isinstance` chain becomes a match
on the (disjoint) value constructors. -/
def to_sql_literal : Value → String
  | .vnull => "NULL"
  | .vbool b => if b then "TRUE" else "FALSE"
  | .vint i => String.mk (intStr i)
  | .vfloat m => String.mk (floatChars m)
  | .vdecimal w f sc => String.mk (decimalChars w f sc)
  | .vdatetime y mo d h mi se =>
      String.mk ('\'' :: (isoDateChars y mo d ++ ' ' :: isoTimeChars h mi se ++ ['\'']))
  | .vdate y mo d => String.mk ('\'' :: (isoDateChars y mo d ++ ['\'']))
  | .vtime h mi se => String.mk ('\'' :: (isoTimeChars h mi se ++ ['\'']))
  | .vstr s => String.mk ('\'' :: (escQuotes s.data ++ ['\'']))

/-! ### Column descriptors and the value generator -/
/-- One parsed column: the dict `{'name': …, 'type': …, 'lens': …}`. -/
structure Col where
  name : String
  type : String
  lens : String
  deriving DecidableEq, Repr

/-- `t_norm`: strip, lower, then rewrite `character varying → varchar` and
`double precision → float8` (in that order), as in `generate_random`. -/
def normType (ty : String) : String :=
  String.mk (replaceSub "double precision".data "float8".data
    (replaceSub "character varying".data "varchar".data (toLowerL (trimL ty.data))))

/-- `_int_between`: `random.randint(0, max_value)`. -/
def _int_between (maxValue : Nat) (s : PyRand) : Value × PyRand :=
  let (n, s') := randint s maxValue
  (.vint (n : Int), s')

/-- `_decimal_random(precision, scale)`.  `precision ≤ 0` resets to 10 (the
arguments are parsed from `\d+` so they are naturals, hence only 0); the
whole part is drawn only when digits remain left of the point. -/
def _decimal_random (precision scale : Nat) (s : PyRand) : Value × PyRand :=
  let precision := if precision = 0 then 10 else precision
  let left := precision - scale
  if 0 < left then
    let (whole, s1) := randint s (10 ^ left - 1)
    if 0 < scale then
      let (frac, s2) := randint s1 (10 ^ scale - 1)
      (.vdecimal whole frac scale, s2)
    else (.vdecimal whole 0 scale, s1)
  else
    if 0 < scale then
      let (frac, s1) := randint s (10 ^ scale - 1)
      (.vdecimal 0 frac scale, s1)
    else (.vdecimal 0 0 scale, s)

/-- `faker.pystr(min_chars, max_chars)` modelled as: draw a length uniformly
in `[minC, maxC]`, draw a letter, return that letter repeated.  (The claims
only constrain lengths, never the characters.) -/
def pystrM (minC maxC : Nat) (s : PyRand) : String × PyRand :=
  let (d, s1) := randint s (maxC - minC)
  let (c, s2) := randint s1 25
  (String.mk (List.replicate (minC + d) (Char.ofNat (97 + c))), s2)

/-- `_char_exact(n)`: clamp to `[1, 255]`, exact length. -/
def _char_exact (n : Nat) (s : PyRand) : Value × PyRand :=
  let n := max 1 (min n 255)
  let (str, s') := pystrM n n s
  (.vstr str, s')

/-- `_char_up_to(n)`: clamp to `[1, 255]`, length in `[1, n]`. -/
def _char_up_to (n : Nat) (s : PyRand) : Value × PyRand :=
  let n := max 1 (min n 255)
  let (str, s') := pystrM 1 n s
  (.vstr str, s')

/-- `faker.date_object()` modelled as three draws (year, month, day). -/
def fakeDate (s : PyRand) : Value × PyRand :=
  let (y, s1) := randint s 129
  let (mo, s2) := randint s1 11
  let (d, s3) := randint s2 27
  (.vdate (1970 + y) (1 + mo) (1 + d), s3)

/-- `faker.date_time()` modelled as six draws. -/
def fakeDateTime (s : PyRand) : Value × PyRand :=
  let (y, s1) := randint s 129
  let (mo, s2) := randint s1 11
  let (d, s3) := randint s2 27
  let (h, s4) := randint s3 23
  let (mi, s5) := randint s4 59
  let (se, s6) := randint s5 59
  (.vdatetime (1970 + y) (1 + mo) (1 + d) h mi se, s6)

/-- `str(uuid.uuid4())` modelled as a canonical hyphenated lowercase-hex
string built from five draws. -/
def hexPad (w n : Nat) : List Char :=
  let go : Nat → Nat → List Char → List Char := fun f => Nat.rec
    (fun _ acc => acc)
    (fun _ ih n acc => if n = 0 then acc else ih (n / 16) (Nat.digitChar (n % 16) :: acc)) f
  let digitsL := go n n []
  List.replicate (w - digitsL.length) '0' ++ digitsL

def fakeUuid (s : PyRand) : Value × PyRand :=
  let (a, s1) := randint s (16 ^ 8 - 1)
  let (b, s2) := randint s1 (16 ^ 4 - 1)
  let (c, s3) := randint s2 (16 ^ 3 - 1)
  let (d, s4) := randint s3 (16 ^ 3 - 1)
  let (e, s5) := randint s4 (16 ^ 12 - 1)
  (.vstr (String.mk (hexPad 8 a ++ '-' :: hexPad 4 b ++ '-' :: '4' :: hexPad 3 c
    ++ '-' :: '8' :: hexPad 3 d ++ '-' :: hexPad 12 e)), s5)

/-- `faker.paragraph(nb_sentences=2)` modelled as a drawn short text. -/
def fakeParagraph (s : PyRand) : Value × PyRand :=
  let (str, s') := pystrM 20 60 s
  (.vstr str, s')

/-- `faker.word()` modelled as a drawn short token. -/
def fakeWord (s : PyRand) : Value × PyRand :=
  let (str, s') := pystrM 3 10 s
  (.vstr str, s')

/-- `(precision, scale)` from the length spec, with the source's
`try/except` reset to `(10, 0)` when any `int(…)` conversion fails. -/
def parsePS (lens : List Char) : Nat × Nat :=
  match splitChar ',' lens with
  | [] => (10, 0)
  | [a] =>
    match pyNat? a with
    | some p => (p, 0)
    | none => (10, 0)
  | a :: b :: _ =>
    match pyNat? a, pyNat? b with
    | some p, some sc => (p, sc)
    | _, _ => (10, 0)

/-- First component of the length spec as `int(lens.split(',')[0])`; the
parser only ever produces digit strings here, so a failed conversion (which
would be a fatal `ValueError` in Python) is collapsed to 0. -/
def lensFirst (lens : List Char) : Nat :=
  match splitChar ',' lens with
  | [] => 0
  | a :: _ => (pyNat? a).getD 0

/-- `generate_random(col_def)`: the type-dispatch chain from the source, in
source order, with `t_norm` normalised by `normType`. -/
def generate_random (c : Col) (s : PyRand) : Value × PyRand :=
  let lens := trimL c.lens.data
  let tn := normType c.type
  if containsStr tn "bigint" || containsStr tn "int8" then
    _int_between 9000000000 s
  else if containsStr tn "smallint" || containsStr tn "int2" then
    _int_between 32000 s
  else if containsStr tn "integer" || containsStr tn "int" || containsStr tn "int4" then
    _int_between 1000000 s
  else if containsStr tn "numeric" || containsStr tn "decimal" then
    let ps := if lens ≠ [] then parsePS lens else (10, 0)
    _decimal_random ps.1 ps.2 s
  else if containsStr tn "float" || containsStr tn "double" || containsStr tn "real" then
    let (u, s') := randint s 1000000000000
    (.vfloat u, s')
  else if containsStr tn "uuid" then
    fakeUuid s
  else if containsStr tn "bool" then
    let (i, s') := randint s 1
    (.vbool (i = 0), s')
  else if stripS tn = "date" then
    fakeDate s
  else if containsStr tn "timestamp" then
    fakeDateTime s
  else if stripS tn = "time" || listStartsWith tn.data "time ".data then
    let (h, s1) := randint s 23
    let (mi, s2) := randint s1 59
    let (se, s3) := randint s2 59
    (.vtime h mi se, s3)
  else if containsStr tn "varchar" || containsStr tn "nvarchar" || containsStr tn "varying" then
    let maxLen := if lens ≠ [] then lensFirst lens else 32
    _char_up_to maxLen s
  else if containsStr tn "bpchar" || listStartsWith tn.data "char".data then
    let n := if lens ≠ [] then lensFirst lens else 1
    _char_exact n s
  else if tn = "text" || tn = "json" || tn = "jsonb" then
    fakeParagraph s
  else
    fakeWord s

/-! ### Rows as Python dicts (insertion keeps position, assignment replaces) -/
/-- A generated row: column name → value, in dict insertion order. -/
abbrev Row := List (String × Value)

/-- Python dict assignment `d[k] = v`: replace in place, else append. -/
def dictInsert : Row → String → Value → Row
  | [], k, v => [(k, v)]
  | (k', v') :: r, k, v =>
    if k' = k then (k', v) :: r else (k', v') :: dictInsert r k v

/-- Same dict model for the string→string configuration maps. -/
def dictInsertS : List (String × String) → String → String → List (String × String)
  | [], k, v => [(k, v)]
  | (k', v') :: r, k, v =>
    if k' = k then (k', v) :: r else (k', v') :: dictInsertS r k v

/-- Same dict model for table-name → column-list schema sets. -/
def dictInsertCols : List (String × List Col) → String → List Col → List (String × List Col)
  | [], k, v => [(k, v)]
  | (k', v') :: r, k, v =>
    if k' = k then (k', v) :: r else (k', v') :: dictInsertCols r k v

/-! ### Fatal errors of a run -/
inductive GenError where
  /-- `SystemExit("No .sql schema files found …")`. -/
  | noSchemaFiles : GenError
  /-- `RuntimeError("Could not generate a unique composite key …")`. -/
  | dupExhausted : GenError
  /-- Python `KeyError` from `row[k]` when a key field is not a column. -/
  | keyError : GenError
  /-- Python `ValueError` from `int(v)` on a malformed multiplier. -/
  | badInt : GenError
  deriving DecidableEq, Repr

/-! ### Row Builder: parent rows with composite-key uniqueness -/
/-- One parent-row attempt: generate every column in order into a fresh dict. -/
def gen_row_aux : List Col → Row → PyRand → Row × PyRand
  | [], r, s => (r, s)
  | c :: cs, r, s =>
    let (v, s') := generate_random c s
    gen_row_aux cs (dictInsert r c.name v) s'

def gen_row (cols : List Col) (s : PyRand) : Row × PyRand := gen_row_aux cols [] s

/-- `composite_key(row, keys)`: `tuple(row[k] for k in keys)`; a missing key
is Python's `KeyError`. -/
def keyTuple? (row : Row) : List String → Option (List Value)
  | [] => some []
  | k :: ks =>
    match List.lookup k row with
    | none => none
    | some v => (keyTuple? row ks).map (v :: ·)

/-- The inner `for _attempt in range(200)` retry loop for one parent row. -/
def try_row (cols : List Col) (keys : List String) :
    Nat → List (List Value) → PyRand → Except GenError (Row × List (List Value) × PyRand)
  | 0, _, _ => .error .dupExhausted
  | fuel + 1, seen, s =>
    let (row, s') := gen_row cols s
    if keys.isEmpty then .ok (row, seen, s')
    else
      match keyTuple? row keys with
      | none => .error .keyError
      | some comp =>
        if comp ∈ seen then try_row cols keys fuel seen s'
        else .ok (row, comp :: seen, s')

/-- The outer `for _ in range(num_rows)` loop accumulating accepted rows. -/
def gen_parent_rows (cols : List Col) (keys : List String) :
    Nat → List Row → List (List Value) → PyRand →
    Except GenError (List Row × List (List Value) × PyRand)
  | 0, rows, seen, s => .ok (rows, seen, s)
  | n + 1, rows, seen, s =>
    match try_row cols keys 200 seen s with
    | .error e => .error e
    | .ok (row, seen', s') => gen_parent_rows cols keys n (rows ++ [row]) seen' s'

/-! ### Row Builder: child rows -/
/-- One child row: copy `prow[fkey_map[cname]]` when the column is mapped and
the mapped parent column exists, otherwise generate independently. -/
def build_child_row (fkey : List (String × String)) (prow : Row) :
    List Col → Row → PyRand → Row × PyRand
  | [], r, s => (r, s)
  | c :: cs, r, s =>
    match List.lookup c.name fkey with
    | some pc =>
      match List.lookup pc prow with
      | some v => build_child_row fkey prow cs (dictInsert r c.name v) s
      | none =>
        let (v, s') := generate_random c s
        build_child_row fkey prow cs (dictInsert r c.name v) s'
    | none =>
      let (v, s') := generate_random c s
      build_child_row fkey prow cs (dictInsert r c.name v) s'

/-- The `for _ in range(m)` repetitions for one parent row. -/
def rep_child (cols : List Col) (fkey : List (String × String)) (prow : Row) :
    Nat → PyRand → List Row × PyRand
  | 0, s => ([], s)
  | k + 1, s =>
    let (r, s1) := build_child_row fkey prow cols [] s
    let (rs, s2) := rep_child cols fkey prow k s1
    (r :: rs, s2)

/-- All child rows of one table, parent-row-major, repetition-minor. -/
def gen_child_rows (cols : List Col) (fkey : List (String × String)) (m : Nat) :
    List Row → PyRand → List Row × PyRand
  | [], s => ([], s)
  | p :: ps, s =>
    let (blk, s1) := rep_child cols fkey p m s
    let (rest, s2) := gen_child_rows cols fkey m ps s1
    (blk ++ rest, s2)

/-! ### Schema Parser -/
/-- The fixed constraint-keyword prefixes skipped inside a column list. -/
def constraint_starts : List (List Char) :=
  ["primary key".data, "foreign key".data, "unique".data, "check".data,
   "constraint".data, "index".data, "key".data, "references".data]

def startsWithAny (l : List Char) (pats : List (List Char)) : Bool :=
  pats.any (listStartsWith l)

/-- Drop a case-insensitive keyword from the front of the scan. -/
def dropKeyword : List Char → List Char → Option (List Char)
  | l, [] => some l
  | [], _ :: _ => none
  | c :: t, k :: ks => if lowerChar c = k then dropKeyword t ks else none

/-- `\s+` (at least one whitespace character). -/
def dropSpaces1 (l : List Char) : Option (List Char) :=
  match l with
  | c :: t => if isSpaceC c then some (t.dropWhile isSpaceC) else none
  | [] => none

/-- Optional `"`. -/
def dropQuote : List Char → List Char
  | '"' :: t => t
  | l => l

/-- Optional `(?:IF\s+NOT\s+EXISTS\s+)?`. -/
def dropIfNotExists (l : List Char) : Option (List Char) := do
  let l ← dropKeyword l "if".data
  let l ← dropSpaces1 l
  let l ← dropKeyword l "not".data
  let l ← dropSpaces1 l
  let l ← dropKeyword l "exists".data
  dropSpaces1 l

/-- Optional schema qualifier `(?:("?\w+"?)\.)?`. -/
def dropSchemaQual (l : List Char) : Option (List Char) := do
  let l := dropQuote l
  let w := l.takeWhile isWordChar
  if w = [] then none
  else
    let l := dropQuote (l.dropWhile isWordChar)
    match l with
    | '.' :: t => some t
    | _ => none

/-- Try the `CREATE TABLE` pattern anchored at the current position. -/
def matchTableAt (l : List Char) : Option (List Char) := do
  let l ← dropKeyword l "create".data
  let l ← dropSpaces1 l
  let l ← dropKeyword l "table".data
  let l ← dropSpaces1 l
  let l := (dropIfNotExists l).getD l
  let l := (dropSchemaQual l).getD l
  let l := dropQuote l
  let w := l.takeWhile isWordChar
  if w = [] then none else some w

/-- `table_re.search(line)`: scan every start position. -/
def searchTable : List Char → Option (List Char)
  | [] => matchTableAt []
  | c :: t =>
    match matchTableAt (c :: t) with
    | some w => some w
    | none => searchTable t

/-- One-or-more type tokens `[^(),\s]+` separated by `\s+`, captured verbatim
(internal whitespace preserved, as the regex group does). -/
def isTypeChar (c : Char) : Bool :=
  !(c = '(' || c = ')' || c = ',' || isSpaceC c)

def typeSpanGo : Nat → List Char → List Char × List Char
  | 0, l => ([], l)
  | fuel + 1, l =>
    let tok := l.takeWhile isTypeChar
    if tok = [] then ([], l)
    else
      let rest := l.dropWhile isTypeChar
      let sp := rest.takeWhile isSpaceC
      let rest2 := rest.dropWhile isSpaceC
      match rest2 with
      | c :: _ =>
        if sp ≠ [] && isTypeChar c then
          let (span2, rest3) := typeSpanGo fuel rest2
          (tok ++ sp ++ span2, rest3)
        else (tok, rest)
      | [] => (tok, rest)

/-- `(?:\((?P<lens>\d+(?:,\d+)?)\))?` immediately after the type span. -/
def parseLensGroup (l : List Char) : Option (List Char × List Char) :=
  match l with
  | '(' :: r =>
    let d1 := r.takeWhile Char.isDigit
    if d1 = [] then none
    else
      match r.dropWhile Char.isDigit with
      | ')' :: rest => some (d1, rest)
      | ',' :: r2 =>
        let d2 := r2.takeWhile Char.isDigit
        if d2 = [] then none
        else
          match r2.dropWhile Char.isDigit with
          | ')' :: rest => some (d1 ++ ',' :: d2, rest)
          | _ => none
      | _ => none
  | _ => none

/-- `\s*(?:,)?\s*$`. -/
def tailOk (l : List Char) : Bool :=
  match l.dropWhile isSpaceC with
  | [] => true
  | ',' :: b => b.dropWhile isSpaceC = []
  | _ => false

/-- `col_re.match(line)`: `^\s*"?(\w+)"?\s+(type)(\(lens\))?\s*,?\s*$`. -/
def colMatch (l0 : List Char) : Option Col :=
  let l1 := l0.dropWhile isSpaceC
  let l2 := dropQuote l1
  let nm := l2.takeWhile isWordChar
  if nm = [] then none
  else
    let l3 := dropQuote (l2.dropWhile isWordChar)
    match dropSpaces1 l3 with
    | none => none
    | some l4 =>
      let (ty, l5) := typeSpanGo l4.length l4
      if ty = [] then none
      else
        match parseLensGroup l5 with
        | some (lens, l6) =>
          if tailOk l6 then some ⟨String.mk nm, String.mk ty, String.mk lens⟩ else none
        | none =>
          if tailOk l5 then some ⟨String.mk nm, String.mk ty, ""⟩ else none

/-- The line loop of `parse_schema_file`, over the file's raw lines. -/
def parse_lines : List String → Option String → List Col → Option String × List Col
  | [], tbl, cols => (tbl, cols)
  | raw :: rest, tbl, cols =>
    let line := trimL raw.data
    if line = [] then parse_lines rest tbl cols
    else
      match tbl with
      | none =>
        match searchTable line with
        | some w => parse_lines rest (some (String.mk w)) cols
        | none => parse_lines rest none cols
      | some t =>
        if listStartsWith line ")".data || listEndsWith line ");".data then
          (some t, cols)
        else if startsWithAny (toLowerL line) constraint_starts then
          parse_lines rest (some t) cols
        else
          match colMatch (rstripComma line) with
          | some c => parse_lines rest (some t) (cols ++ [c])
          | none => parse_lines rest (some t) cols

/-- `parse_schema_file(path)` over a file given as its list of lines. -/
def parse_schema_file (lines : List String) : Option String × List Col :=
  parse_lines lines none []

/-- `parse_schema_dir`: keep `.sql` files (case-insensitive) in listing
order; a file contributes only if it yields a table name and ≥ 1 column. -/
def parse_schema_dir (files : List (String × List String)) : List (String × List Col) :=
  files.foldl
    (fun schemas file =>
      if listEndsWith (toLowerL file.1.data) ".sql".data then
        match parse_schema_file file.2 with
        | (some tbl, cols) => if cols ≠ [] then dictInsertCols schemas tbl cols else schemas
        | (none, _) => schemas
      else schemas)
    []

/-! ### CLI configuration parsing -/
/-- `parse_keyval_map(s)` with the default `','`/`'='` separators. -/
def parse_keyval_map (s : String) : List (String × String) :=
  if s = "" then []
  else
    (splitChar ',' s.data).foldl
      (fun out piece =>
        let piece := trimL piece
        if piece = [] then out
        else if !piece.contains '=' then out
        else
          let k := trimL (piece.takeWhile (· ≠ '='))
          let v := trimL ((piece.dropWhile (· ≠ '=')).drop 1)
          dictInsertS out (String.mk k) (String.mk v))
      []

/-- Python `int(v)` on a stripped token, with an optional sign. -/
def pyInt? (v : String) : Option Int :=
  match trimL v.data with
  | '-' :: t => (pyNat? t).map (fun n => -(n : Int))
  | '+' :: t => (pyNat? t).map (fun n => (n : Int))
  | t => (pyNat? t).map (fun n => (n : Int))

/-- `{k: int(v) for k, v in …}`: a failed conversion is a fatal ValueError. -/
def parse_mult_map (s : String) : Except GenError (List (String × Int)) :=
  (parse_keyval_map s).mapM
    (fun kv =>
      match pyInt? kv.2 with
      | some n => .ok (kv.1, n)
      | none => .error .badInt)

/-- The stripped, non-empty key-field names, in order (`parent_keys`). -/
def parsedKeys (key_fields : String) : List String :=
  ((splitChar ',' key_fields.data).map trimL).filterMap
    (fun l => if l = [] then none else some (String.mk l))

/-- Parent-table selection: default to the first table; with a non-empty
`key_fields` string, the first table whose column names include every parsed
key wins, else the default stands. -/
def choose_parent (schemas : List (String × List Col)) (key_fields : String)
    (dflt : String) : String :=
  if key_fields ≠ "" then
    match schemas.find? (fun tc => !(parsedKeys key_fields).isEmpty &&
        (parsedKeys key_fields).all (fun k => (tc.2.map Col.name).contains k)) with
    | some tc => tc.1
    | none => dflt
  else dflt

/-! ### Orchestrator (`main_cli`), directory as listing-ordered (name, lines) -/
/-- Child tables in schema-set order, skipping the parent. -/
def gen_children (mult : List (String × Int)) (fkey : List (String × String))
    (parent : String) (prows : List Row) :
    List (String × List Col) → PyRand → List (String × List Row) × PyRand
  | [], s => ([], s)
  | (tbl, cols) :: rest, s =>
    if tbl = parent then gen_children mult fkey parent prows rest s
    else
      let m := (List.lookup tbl mult).getD 1
      let (rows, s1) := gen_child_rows cols fkey m.toNat prows s
      let (others, s2) := gen_children mult fkey parent prows rest s1
      ((tbl, rows) :: others, s2)

/-- `main_cli`: parse the directory, select the parent, build parent rows
(with the bounded uniqueness retry), then each child table in order.  The
result lists each table with its rows in output (write) order. -/
def main_cli (files : List (String × List String)) (key_fields : String)
    (num_rows : Nat) (multipliers foreign_map : String) (s : PyRand) :
    Except GenError (List (String × List Row)) :=
  let schemas := parse_schema_dir files
  match schemas with
  | [] => .error .noSchemaFiles
  | first :: _ =>
    let parent_table := choose_parent schemas key_fields first.1
    let parent_cols := (List.lookup parent_table schemas).getD []
    let parent_keys := parsedKeys key_fields
    match gen_parent_rows parent_cols parent_keys num_rows [] [] s with
    | .error e => .error e
    | .ok (parent_rows, _, s1) =>
      match parse_mult_map multipliers with
      | .error e => .error e
      | .ok mult_map =>
        let fkey_map := parse_keyval_map foreign_map
        let (children, _) := gen_children mult_map fkey_map parent_table parent_rows schemas s1
        .ok ((parent_table, parent_rows) :: children)

/-- The stream transformer of one discarded attempt. -/
def genStep (cols : List Col) : PyRand → PyRand := fun s => (gen_row cols s).2

/-- The composite-key tuple of a row as total `Option` lookups. -/
def lookupTuple (keys : List String) (r : Row) : List (Option Value) :=
  keys.map (fun k => List.lookup k r)

/-! ### Lemmas: decimal text shape -/
/-- Digits before the decimal point of a rendered number. -/
def digitsBeforePoint (l : List Char) : Nat :=
  (l.takeWhile (fun c => c != '.')).length

/-- Digits after the decimal point of a rendered number. -/
def digitsAfterPoint (l : List Char) : Nat :=
  ((l.dropWhile (fun c => c != '.')).drop 1).length

/-! ### Projections used to state concrete runs without comparing streams -/
def rowsOf : Except GenError (List Row × List (List Value) × PyRand) → Option (List Row)
  | .ok t => some t.1
  | .error _ => none

def errOf : Except GenError (List Row × List (List Value) × PyRand) → Option GenError
  | .ok _ => none
  | .error e => some e

/-- Shared concrete stream for witnesses: the identity stream. -/
def sW : PyRand := fun i => i

/-- Shared concrete parent schema (the `Customer` table of the end-to-end
scenario). -/
def customerCols : List Col := [⟨"id", "integer", ""⟩, ⟨"code", "varchar", "5"⟩]

def orderCols : List Col := [⟨"id", "integer", ""⟩, ⟨"customer_id", "integer", ""⟩]

/-- Concrete schema file exercising the constraint-prefix skip on column
names that merely begin with constraint keywords. -/
def c9Lines : List String :=
  ["CREATE TABLE gadgets (",
   "  id integer,",
   "  key_id integer,",
   "  checksum integer,",
   "  index_no integer,",
   "  references_count integer,",
   "  name varchar(10)",
   ");"]

def schemasW : List (String × List Col) :=
  [("Customer", customerCols), ("Order", orderCols)]

/-! ### The end-to-end scenario (C1) -/
def customerLines : List String :=
  ["CREATE TABLE \"Customer\" (", "  id integer,", "  code varchar(5)", ");"]

def orderLines : List String :=
  ["CREATE TABLE \"Order\" (", "  id integer,", "  customer_id integer", ");"]

/-- The scenario directory with the Customer file listed first. -/
def filesCO : List (String × List String) :=
  [("customer.sql", customerLines), ("order.sql", orderLines)]

/-- The same directory with the Order file listed first. -/
def filesOC : List (String × List String) :=
  [("order.sql", orderLines), ("customer.sql", customerLines)]

instance {ε α : Type} [DecidableEq ε] [DecidableEq α] : DecidableEq (Except ε α) := fun a b =>
  match a, b with
  | .error e, .error e' =>
    if h : e = e' then isTrue (h ▸ rfl) else isFalse (fun hc => h (Except.error.inj hc))
  | .ok x, .ok y =>
    if h : x = y then isTrue (h ▸ rfl) else isFalse (fun hc => h (Except.ok.inj hc))
  | .error _, .ok _ => isFalse (fun hc => Except.noConfusion hc)
  | .ok _, .error _ => isFalse (fun hc => Except.noConfusion hc)

/-- The concrete output of the Customer-first scenario on the identity
stream. -/
def outW : List (String × List Row) :=
  [("Customer",
    [[("id", .vint 0), ("code", .vstr "cc")],
     [("id", .vint 3), ("code", .vstr "fffff")],
     [("id", .vint 6), ("code", .vstr "iii")]]),
   ("Order",
    [[("id", .vint 9), ("customer_id", .vint 0)],
     [("id", .vint 10), ("customer_id", .vint 0)],
     [("id", .vint 11), ("customer_id", .vint 3)],
     [("id", .vint 12), ("customer_id", .vint 3)],
     [("id", .vint 13), ("customer_id", .vint 6)],
     [("id", .vint 14), ("customer_id", .vint 6)]])]

/-- The concrete output of the Order-first scenario on the identity stream. -/
def outOC : List (String × List Row) :=
  [("Order",
    [[("id", .vint 0), ("customer_id", .vint 1)],
     [("id", .vint 2), ("customer_id", .vint 3)],
     [("id", .vint 4), ("customer_id", .vint 5)]]),
   ("Customer",
    [[("id", .vint 6), ("code", .vstr "iii")],
     [("id", .vint 9), ("code", .vstr "l")],
     [("id", .vint 12), ("code", .vstr "oooo")]])]

/-! ### Theorems -/

theorem natCharsGo_eq (f : Nat) : ∀ n acc, n ≤ f →
    natCharsGo f n acc = natDigitsList n ++ acc := by
  induction f with
  | zero =>
    intro n acc hn
    have h0 : n = 0 := Nat.le_zero.mp hn
    subst h0
    simp [natCharsGo, natDigitsList]
  | succ f ih =>
    intro n acc hn
    by_cases h : n < 10
    · simp [natCharsGo, h, natDigitsList]
    · have hd : n / 10 ≤ f := by
        have : n / 10 < n := Nat.div_lt_self (by omega) (by omega)
        omega
      simp only [natCharsGo, if_neg h]
      rw [ih _ _ hd]
      conv_rhs => rw [natDigitsList]
      rw [dif_neg h]
      simp

theorem natChars_eq (n : Nat) : natChars n = natDigitsList n := by
  simpa using natCharsGo_eq n n [] (Nat.le_refl n)

theorem natDigitsList_ne_nil (n : Nat) : natDigitsList n ≠ [] := by
  rw [natDigitsList]
  split <;> simp

theorem natDigitsList_length_le (k : Nat) : ∀ n, n < 10 ^ k → 1 ≤ k →
    (natDigitsList n).length ≤ k := by
  induction k with
  | zero => intro n _ h1; omega
  | succ k ih =>
    intro n hn _
    by_cases h : n < 10
    · rw [natDigitsList, dif_pos h]
      simp only [List.length_singleton]
      omega
    · rw [natDigitsList]
      simp only [dif_neg h, List.length_append, List.length_cons, List.length_nil]
      have hk : 1 ≤ k := by
        by_contra hk0
        have : k = 0 := by omega
        subst this
        simp at hn
        omega
      have hdiv : n / 10 < 10 ^ k := by
        have : n < 10 * 10 ^ k := by
          have := hn
          rw [pow_succ] at this
          omega
        exact Nat.div_lt_of_lt_mul (by omega)
      have := ih (n / 10) hdiv hk
      omega

theorem digitChar_isDigit {n : Nat} (h : n < 10) : (Nat.digitChar n).isDigit = true := by
  interval_cases n <;> decide

theorem natDigitsList_all_digits (n : Nat) : ∀ c ∈ natDigitsList n, c.isDigit = true := by
  induction n using Nat.strong_induction_on with
  | _ n ih =>
    intro c hc
    rw [natDigitsList] at hc
    by_cases h : n < 10
    · rw [dif_pos h] at hc
      simp at hc
      subst hc
      exact digitChar_isDigit h
    · rw [dif_neg h] at hc
      rcases List.mem_append.mp hc with h1 | h1
      · exact ih (n / 10) (Nat.div_lt_self (by omega) (by omega)) c h1
      · simp at h1
        subst h1
        exact digitChar_isDigit (Nat.mod_lt _ (by omega))

/-! ### Lemmas: dict lookups -/
theorem lookup_dictInsert_self (r : Row) (k : String) (v : Value) :
    List.lookup k (dictInsert r k v) = some v := by
  induction r with
  | nil => simp [dictInsert, List.lookup]
  | cons kv r ih =>
    obtain ⟨k', v'⟩ := kv
    by_cases h : k' = k
    · subst h
      simp [dictInsert, List.lookup]
    · have hb : (k == k') = false := by
        simp only [beq_eq_false_iff_ne]
        exact Ne.symm h
      simp [dictInsert, h, List.lookup, hb, ih]

theorem lookup_dictInsert_ne (r : Row) (k k' : String) (v : Value) (h : k' ≠ k) :
    List.lookup k' (dictInsert r k v) = List.lookup k' r := by
  have hb : (k' == k) = false := by
    simp only [beq_eq_false_iff_ne]
    exact h
  induction r with
  | nil => simp [dictInsert, List.lookup, hb]
  | cons kv r ih =>
    obtain ⟨k0, v0⟩ := kv
    by_cases h0 : k0 = k
    · subst h0
      simp [dictInsert, List.lookup, hb]
    · simp only [dictInsert, if_neg h0]
      by_cases h1 : k' = k0
      · subst h1
        simp [List.lookup]
      · have hb1 : (k' == k0) = false := by
          simp only [beq_eq_false_iff_ne]
          exact h1
        simp [List.lookup, hb1, ih]

/-! ### Lemmas: parent-row generation -/
theorem gen_row_aux_lookup_isSome (k : String) :
    ∀ (cols : List Col) (r : Row) (s : PyRand),
      (k ∈ cols.map Col.name ∨ (List.lookup k r).isSome) →
      (List.lookup k (gen_row_aux cols r s).1).isSome := by
  intro cols
  induction cols with
  | nil =>
    intro r s h
    rcases h with h | h
    · simp at h
    · simpa [gen_row_aux] using h
  | cons c cs ih =>
    intro r s h
    simp only [gen_row_aux]
    by_cases hc : c.name = k
    · apply ih
      right
      rw [hc, lookup_dictInsert_self]
      rfl
    · apply ih
      rcases h with h | h
      · simp at h
        rcases h with h | h
        · exact absurd h.symm hc
        · left; simpa using h
      · right
        rwa [lookup_dictInsert_ne _ _ _ _ (fun he => hc he.symm)]

theorem gen_row_lookup_isSome {k : String} {cols : List Col}
    (h : k ∈ cols.map Col.name) (s : PyRand) :
    (List.lookup k (gen_row cols s).1).isSome :=
  gen_row_aux_lookup_isSome k cols [] s (Or.inl h)

theorem keyTuple?_isSome (row : Row) :
    ∀ keys : List String, (∀ k ∈ keys, (List.lookup k row).isSome) →
      (keyTuple? row keys).isSome := by
  intro keys
  induction keys with
  | nil => intro _; simp [keyTuple?]
  | cons k ks ih =>
    intro h
    have hk := h k (by simp)
    obtain ⟨v, hv⟩ := Option.isSome_iff_exists.mp hk
    have hks := ih (fun k' hk' => h k' (by simp [hk']))
    obtain ⟨t, ht⟩ := Option.isSome_iff_exists.mp hks
    simp [keyTuple?, hv, ht]

theorem keyTuple?_map_some (row : Row) :
    ∀ (keys : List String) (comp : List Value), keyTuple? row keys = some comp →
      keys.map (fun k => List.lookup k row) = comp.map some := by
  intro keys
  induction keys with
  | nil =>
    intro comp h
    simp [keyTuple?] at h
    subst h
    simp
  | cons k ks ih =>
    intro comp h
    simp only [keyTuple?] at h
    cases hv : List.lookup k row with
    | none => rw [hv] at h; exact absurd h (by simp)
    | some v =>
      rw [hv] at h
      cases ht : keyTuple? row ks with
      | none => rw [ht] at h; exact absurd h (by simp)
      | some t =>
        rw [ht] at h
        simp at h
        subst h
        simp [hv, ih t ht]

theorem try_row_ok {cols : List Col} {keys : List String} (hne : keys ≠ []) :
    ∀ (fuel : Nat) (seen : List (List Value)) (s : PyRand) row seen' s',
      try_row cols keys fuel seen s = .ok (row, seen', s') →
      ∃ comp, keyTuple? row keys = some comp ∧ comp ∉ seen ∧ seen' = comp :: seen := by
  intro fuel
  induction fuel with
  | zero => intro seen s row seen' s' h; exact absurd h (by simp [try_row])
  | succ fuel ih =>
    intro seen s row seen' s' h
    simp only [try_row] at h
    rw [if_neg (by simpa [List.isEmpty_iff] using hne)] at h
    split at h
    · exact absurd h (by simp)
    · rename_i comp ht
      split at h
      · exact ih seen _ row seen' s' h
      · rename_i hm
        simp only [Except.ok.injEq, Prod.mk.injEq] at h
        obtain ⟨h1, h2, _⟩ := h
        exact ⟨comp, h1 ▸ ht, hm, h2.symm⟩

theorem try_row_error {cols : List Col} {keys : List String}
    (hall : ∀ s : PyRand, (keyTuple? (gen_row cols s).1 keys).isSome) :
    ∀ (fuel : Nat) (seen : List (List Value)) (s : PyRand) (e : GenError),
      try_row cols keys fuel seen s = .error e → e = .dupExhausted := by
  intro fuel
  induction fuel with
  | zero =>
    intro seen s e h
    simp [try_row] at h
    exact h.symm
  | succ fuel ih =>
    intro seen s e h
    simp only [try_row] at h
    split at h
    · exact absurd h (by simp)
    · split at h
      · rename_i ht
        have := hall s
        rw [ht] at this
        exact absurd this (by simp)
      · split at h
        · exact ih seen _ e h
        · exact absurd h (by simp)

theorem try_row_error_iff {cols : List Col} {keys : List String} (hne : keys ≠ [])
    (hall : ∀ s : PyRand, (keyTuple? (gen_row cols s).1 keys).isSome) :
    ∀ (fuel : Nat) (seen : List (List Value)) (s : PyRand),
      (try_row cols keys fuel seen s = .error .dupExhausted ↔
        ∀ j < fuel, ∃ comp,
          keyTuple? (gen_row cols ((genStep cols)^[j] s)).1 keys = some comp ∧ comp ∈ seen) := by
  intro fuel
  induction fuel with
  | zero =>
    intro seen s
    simp [try_row]
  | succ fuel ih =>
    intro seen s
    simp only [try_row]
    rw [if_neg (by simpa [List.isEmpty_iff] using hne)]
    obtain ⟨comp, hc⟩ := Option.isSome_iff_exists.mp (hall s)
    rw [hc]
    simp only
    by_cases hm : comp ∈ seen
    · rw [if_pos hm, ih]
      constructor
      · intro h j hj
        cases j with
        | zero => exact ⟨comp, by simpa using hc, hm⟩
        | succ j =>
          have := h j (by omega)
          simpa [Function.iterate_succ_apply, genStep] using this
      · intro h j hj
        have := h (j + 1) (by omega)
        simpa [Function.iterate_succ_apply, genStep] using this
    · rw [if_neg hm]
      constructor
      · intro h; exact absurd h (by simp)
      · intro h
        obtain ⟨comp', hc', hm'⟩ := h 0 (by omega)
        simp only [Function.iterate_zero, id] at hc'
        rw [hc] at hc'
        simp at hc'
        subst hc'
        exact absurd hm' hm

theorem gen_parent_rows_length {cols : List Col} {keys : List String} :
    ∀ (n : Nat) (rows0 : List Row) (seen0 : List (List Value)) (s : PyRand)
      rows seen s',
      gen_parent_rows cols keys n rows0 seen0 s = .ok (rows, seen, s') →
      rows.length = rows0.length + n := by
  intro n
  induction n with
  | zero =>
    intro rows0 seen0 s rows seen s' h
    simp only [gen_parent_rows, Except.ok.injEq, Prod.mk.injEq] at h
    obtain ⟨h1, _, _⟩ := h
    simp [← h1]
  | succ n ih =>
    intro rows0 seen0 s rows seen s' h
    simp only [gen_parent_rows] at h
    split at h
    · exact absurd h (by simp)
    · rename_i row seen1 s1 _
      have := ih (rows0 ++ [row]) seen1 s1 rows seen s' h
      simp at this
      omega

theorem gen_parent_rows_pairwise {cols : List Col} {keys : List String}
    (hne : keys ≠ []) :
    ∀ (n : Nat) (rows0 : List Row) (seen0 : List (List Value)) (s : PyRand)
      rows seen s',
      gen_parent_rows cols keys n rows0 seen0 s = .ok (rows, seen, s') →
      (rows0.map (lookupTuple keys)).Pairwise (· ≠ ·) →
      (∀ r ∈ rows0, lookupTuple keys r ∈ seen0.map (List.map some)) →
      (rows.map (lookupTuple keys)).Pairwise (· ≠ ·) := by
  intro n
  induction n with
  | zero =>
    intro rows0 seen0 s rows seen s' h hpw _
    simp only [gen_parent_rows, Except.ok.injEq, Prod.mk.injEq] at h
    obtain ⟨h1, _, _⟩ := h
    rwa [← h1]
  | succ n ih =>
    intro rows0 seen0 s rows seen s' h hpw hmem
    simp only [gen_parent_rows] at h
    split at h
    · exact absurd h (by simp)
    · rename_i row seen1 s1 hok
      obtain ⟨comp, hcomp, hnot, hseen1⟩ := try_row_ok hne 200 seen0 s row seen1 s1 hok
      have hrowt : lookupTuple keys row = comp.map some :=
        keyTuple?_map_some row keys comp hcomp
      apply ih (rows0 ++ [row]) seen1 s1 rows seen s' h
      · rw [List.map_append, List.pairwise_append]
        refine ⟨hpw, by simp, ?_⟩
        intro a ha b hb
        simp at hb
        subst hb
        rcases List.mem_map.mp ha with ⟨r0, hr0, hr0t⟩
        have hmem0 := hmem r0 hr0
        rw [hr0t] at hmem0
        rw [hrowt]
        intro heq
        rw [heq] at hmem0
        rcases List.mem_map.mp hmem0 with ⟨c0, hc0, hc0e⟩
        have : comp = c0 := by
          have hinj : Function.Injective (some : Value → Option Value) :=
            fun a b hab => Option.some.inj hab
          exact (List.map_injective_iff.mpr hinj hc0e.symm)
        exact hnot (this ▸ hc0)
      · intro r hr
        rcases List.mem_append.mp hr with hr | hr
        · have := hmem r hr
          rw [hseen1]
          simp at this ⊢
          tauto
        · simp at hr
          subst hr
          rw [hseen1, hrowt]
          simp

theorem gen_parent_rows_error {cols : List Col} {keys : List String}
    (hall : ∀ s : PyRand, (keyTuple? (gen_row cols s).1 keys).isSome) :
    ∀ (n : Nat) (rows0 : List Row) (seen0 : List (List Value)) (s : PyRand)
      (e : GenError),
      gen_parent_rows cols keys n rows0 seen0 s = .error e → e = .dupExhausted := by
  intro n
  induction n with
  | zero =>
    intro rows0 seen0 s e h
    exact absurd h (by simp [gen_parent_rows])
  | succ n ih =>
    intro rows0 seen0 s e h
    simp only [gen_parent_rows] at h
    split at h
    · rename_i e0 herr
      simp only [Except.error.injEq] at h
      subst h
      exact try_row_error hall 200 seen0 s e0 herr
    · rename_i row seen1 s1 _
      exact ih (rows0 ++ [row]) seen1 s1 e h

theorem gen_parent_rows_error_iff {cols : List Col} {keys : List String} :
    ∀ (n : Nat) (rows0 : List Row) (seen0 : List (List Value)) (s : PyRand),
      (gen_parent_rows cols keys n rows0 seen0 s = .error .dupExhausted ↔
        ∃ k, k < n ∧ ∃ rows' seen' s',
          gen_parent_rows cols keys k rows0 seen0 s = .ok (rows', seen', s') ∧
          try_row cols keys 200 seen' s' = .error .dupExhausted) := by
  intro n
  induction n with
  | zero =>
    intro rows0 seen0 s
    simp [gen_parent_rows]
  | succ n ih =>
    intro rows0 seen0 s
    constructor
    · intro h
      simp only [gen_parent_rows] at h
      split at h
      · rename_i e0 herr
        simp only [Except.error.injEq] at h
        subst h
        exact ⟨0, by omega, rows0, seen0, s, by simp [gen_parent_rows], herr⟩
      · rename_i row seen1 s1 hok
        obtain ⟨k, hk, rows', seen', s', hgen, htr⟩ := (ih (rows0 ++ [row]) seen1 s1).mp h
        refine ⟨k + 1, by omega, rows', seen', s', ?_, htr⟩
        simp only [gen_parent_rows, hok]
        exact hgen
    · intro h
      obtain ⟨k, hk, rows', seen', s', hgen, htr⟩ := h
      cases k with
      | zero =>
        simp only [gen_parent_rows, Except.ok.injEq, Prod.mk.injEq] at hgen
        obtain ⟨h1, h2, h3⟩ := hgen
        simp only [gen_parent_rows]
        rw [← h2, ← h3] at htr
        rw [htr]
      | succ k =>
        simp only [gen_parent_rows] at hgen ⊢
        split at hgen
        · exact absurd hgen (by simp)
        · rename_i row seen1 s1 hok
          exact (ih (rows0 ++ [row]) seen1 s1).mpr ⟨k, by omega, rows', seen', s', hgen, htr⟩

/-! ### Lemmas: child-row generation -/
theorem build_child_row_lookup_copy {fkey : List (String × String)} {prow : Row}
    {cname pc : String} {v : Value}
    (hc : List.lookup cname fkey = some pc) (hv : List.lookup pc prow = some v) :
    ∀ (cols : List Col) (r0 : Row) (s : PyRand),
      (cname ∈ cols.map Col.name ∨ List.lookup cname r0 = some v) →
      List.lookup cname (build_child_row fkey prow cols r0 s).1 = some v := by
  intro cols
  induction cols with
  | nil =>
    intro r0 s h
    rcases h with h | h
    · simp at h
    · simpa [build_child_row] using h
  | cons c cs ih =>
    intro r0 s h
    by_cases hcn : c.name = cname
    · simp only [build_child_row, hcn, hc, hv]
      apply ih
      right
      exact lookup_dictInsert_self r0 cname v
    · have hpres : ∀ (w : Value),
          (cname ∈ cs.map Col.name ∨ List.lookup cname (dictInsert r0 c.name w) = some v) := by
        intro w
        rcases h with h' | h'
        · simp at h'
          rcases h' with h' | h'
          · exact absurd h'.symm hcn
          · left; simpa using h'
        · right
          rwa [lookup_dictInsert_ne _ _ _ _ (fun he => hcn he.symm)]
      simp only [build_child_row]
      split
      · split
        · exact ih _ _ (hpres _)
        · exact ih _ _ (hpres _)
      · exact ih _ _ (hpres _)

theorem build_child_row_lookup_notmem {fkey : List (String × String)} {prow : Row}
    {k : String} :
    ∀ (cols : List Col) (r0 : Row) (s : PyRand), k ∉ cols.map Col.name →
      List.lookup k (build_child_row fkey prow cols r0 s).1 = List.lookup k r0 := by
  intro cols
  induction cols with
  | nil => intro r0 s _; simp [build_child_row]
  | cons c cs ih =>
    intro r0 s h
    have hc : c.name ≠ k := by
      intro he
      exact h (by simp [he])
    have hcs : k ∉ cs.map Col.name := by
      intro hm
      exact h (by simp [hm])
    have hpres : ∀ (w : Value),
        List.lookup k (dictInsert r0 c.name w) = List.lookup k r0 := by
      intro w
      exact lookup_dictInsert_ne _ _ _ _ (fun he => hc he.symm)
    simp only [build_child_row]
    split
    · split
      · rw [ih _ _ hcs, hpres]
      · rw [ih _ _ hcs, hpres]
    · rw [ih _ _ hcs, hpres]

theorem build_child_row_lookup_gen {fkey : List (String × String)} {prow : Row} :
    ∀ (cols : List Col) (c : Col), c ∈ cols → (cols.map Col.name).Nodup →
      (∀ pc, List.lookup c.name fkey = some pc → List.lookup pc prow = none) →
      ∀ (r0 : Row) (s : PyRand),
        ∃ t, List.lookup c.name (build_child_row fkey prow cols r0 s).1 =
          some ((generate_random c t).1) := by
  intro cols
  induction cols with
  | nil => intro c hc; simp at hc
  | cons c0 cs ih =>
    intro c hc hnd hgen r0 s
    rcases List.mem_cons.mp hc with hc0 | hcs
    · subst hc0
      have hnot : c.name ∉ cs.map Col.name := by
        simp only [List.map_cons, List.nodup_cons] at hnd
        exact hnd.1
      simp only [build_child_row]
      split
      · rename_i pc hf
        split
        · rename_i w hw
          exact absurd hw (by simp [hgen pc hf])
        · refine ⟨s, ?_⟩
          rw [build_child_row_lookup_notmem cs _ _ hnot, lookup_dictInsert_self]
      · refine ⟨s, ?_⟩
        rw [build_child_row_lookup_notmem cs _ _ hnot, lookup_dictInsert_self]
    · have hne : c0.name ≠ c.name := by
        simp only [List.map_cons, List.nodup_cons] at hnd
        intro he
        exact hnd.1 (he ▸ List.mem_map.mpr ⟨c, hcs, rfl⟩)
      have hndcs : (cs.map Col.name).Nodup := by
        simp only [List.map_cons, List.nodup_cons] at hnd
        exact hnd.2
      simp only [build_child_row]
      split
      · split
        · exact ih c hcs hndcs hgen _ _
        · exact ih c hcs hndcs hgen _ _
      · exact ih c hcs hndcs hgen _ _

theorem rep_child_length (cols : List Col) (fkey : List (String × String)) (prow : Row) :
    ∀ (m : Nat) (s : PyRand), (rep_child cols fkey prow m s).1.length = m := by
  intro m
  induction m with
  | zero => intro s; simp [rep_child]
  | succ m ih => intro s; simp [rep_child, ih]

theorem rep_child_get? (cols : List Col) (fkey : List (String × String)) (prow : Row) :
    ∀ (m j : Nat) (s : PyRand), j < m →
      ∃ t, (rep_child cols fkey prow m s).1.get? j =
        some ((build_child_row fkey prow cols [] t).1) := by
  intro m
  induction m with
  | zero => intro j s h; omega
  | succ m ih =>
    intro j s h
    cases j with
    | zero => exact ⟨s, by simp [rep_child]⟩
    | succ j =>
      obtain ⟨t, ht⟩ := ih j _ (by omega)
      exact ⟨t, by simpa [rep_child] using ht⟩

theorem gen_child_rows_length (cols : List Col) (fkey : List (String × String)) (m : Nat) :
    ∀ (prows : List Row) (s : PyRand),
      (gen_child_rows cols fkey m prows s).1.length = prows.length * m := by
  intro prows
  induction prows with
  | nil => intro s; simp [gen_child_rows]
  | cons p ps ih =>
    intro s
    simp only [gen_child_rows, List.length_append, rep_child_length, ih, List.length_cons]
    ring

theorem gen_child_rows_get? (cols : List Col) (fkey : List (String × String)) (m : Nat) :
    ∀ (prows : List Row) (s : PyRand) (i j : Nat) (p : Row), j < m →
      prows.get? i = some p →
      ∃ t, (gen_child_rows cols fkey m prows s).1.get? (i * m + j) =
        some ((build_child_row fkey p cols [] t).1) := by
  intro prows
  induction prows with
  | nil => intro s i j p _ hp; simp at hp
  | cons p0 ps ih =>
    intro s i j p hj hp
    cases i with
    | zero =>
      simp only [List.get?] at hp
      have hp0 : p0 = p := by simpa using hp
      subst hp0
      simp only [gen_child_rows]
      obtain ⟨t, ht⟩ := rep_child_get? cols fkey p0 m j s hj
      refine ⟨t, ?_⟩
      rw [List.get?_append]
      · simpa using ht
      · rw [rep_child_length]
        omega
    | succ i =>
      simp only [List.get?] at hp
      simp only [gen_child_rows]
      obtain ⟨t, ht⟩ := ih _ i j p hj hp
      refine ⟨t, ?_⟩
      rw [List.get?_append_right]
      · rw [rep_child_length]
        have : (i + 1) * m + j - m = i * m + j := by ring_nf; omega
        rw [this]
        exact ht
      · rw [rep_child_length]
        have : (i + 1) * m = i * m + m := by ring
        omega

theorem takeWhile_append_all {p : Char → Bool} :
    ∀ {l1 l2 : List Char}, (∀ c ∈ l1, p c = true) →
      (l1 ++ l2).takeWhile p = l1 ++ l2.takeWhile p := by
  intro l1
  induction l1 with
  | nil => intro l2 _; simp
  | cons c t ih =>
    intro l2 h
    have hc := h c (by simp)
    simp [List.takeWhile, hc, ih (fun c' hc' => h c' (by simp [hc']))]

theorem dropWhile_append_all {p : Char → Bool} :
    ∀ {l1 l2 : List Char}, (∀ c ∈ l1, p c = true) →
      (l1 ++ l2).dropWhile p = l2.dropWhile p := by
  intro l1
  induction l1 with
  | nil => intro l2 _; simp
  | cons c t ih =>
    intro l2 h
    have hc := h c (by simp)
    simp [List.dropWhile, hc, ih (fun c' hc' => h c' (by simp [hc']))]

theorem natChars_not_dot (n : Nat) : ∀ c ∈ natChars n, (c != '.') = true := by
  intro c hc
  rw [natChars_eq] at hc
  have := natDigitsList_all_digits n c hc
  simp only [bne_iff_ne, ne_eq]
  intro he
  subst he
  simp [Char.isDigit] at this

theorem natChars_length_le {n k : Nat} (hn : n < 10 ^ k) (hk : 1 ≤ k) :
    (natChars n).length ≤ k := by
  rw [natChars_eq]
  exact natDigitsList_length_le k n hn hk

theorem takeWhile_all_eq {p : Char → Bool} {l : List Char} (h : ∀ c ∈ l, p c = true) :
    l.takeWhile p = l := by
  have := @takeWhile_append_all p l [] h
  simpa using this

theorem dropWhile_all_nil {p : Char → Bool} {l : List Char} (h : ∀ c ∈ l, p c = true) :
    l.dropWhile p = [] := by
  have := @dropWhile_append_all p l [] h
  simpa using this

theorem decimalChars_before {w : Nat} (f : Nat) {sc left : Nat}
    (hw : w < 10 ^ left) :
    digitsBeforePoint (decimalChars w f sc) ≤ max left 1 := by
  have hlen : (natChars w).length ≤ max left 1 := by
    apply natChars_length_le _ (by omega)
    calc w < 10 ^ left := hw
      _ ≤ 10 ^ max left 1 := Nat.pow_le_pow_right (by omega) (by omega)
  cases sc with
  | zero =>
    unfold digitsBeforePoint decimalChars
    rw [takeWhile_all_eq (natChars_not_dot w)]
    exact hlen
  | succ n =>
    unfold digitsBeforePoint decimalChars
    rw [takeWhile_append_all (natChars_not_dot w)]
    simp only [List.takeWhile, bne_self_eq_false]
    simpa using hlen

theorem decimalChars_after {f sc : Nat} (w : Nat) (hf : f < 10 ^ sc) :
    digitsAfterPoint (decimalChars w f sc) = sc := by
  cases sc with
  | zero =>
    unfold digitsAfterPoint decimalChars
    rw [dropWhile_all_nil (natChars_not_dot w)]
    simp
  | succ n =>
    unfold digitsAfterPoint decimalChars
    rw [dropWhile_append_all (natChars_not_dot w)]
    simp only [List.dropWhile, bne_self_eq_false]
    have hflen : (natChars f).length ≤ n + 1 := natChars_length_le hf (by omega)
    simp [List.length_replicate]
    omega

/-! ### Lemmas: `find?` returns the first qualifying element -/
theorem find?_first {α : Type} (p : α → Bool) :
    ∀ (l : List α) (x : α), l.find? p = some x →
      ∃ i, l.get? i = some x ∧ p x = true ∧
        ∀ j < i, ∀ y, l.get? j = some y → p y = false := by
  intro l
  induction l with
  | nil => intro x h; simp at h
  | cons a t ih =>
    intro x h
    by_cases hp : p a = true
    · rw [List.find?_cons_of_pos _ hp] at h
      simp at h
      subst h
      exact ⟨0, by simp, hp, by omega⟩
    · rw [List.find?_cons_of_neg _ (by simpa using hp)] at h
      obtain ⟨i, hget, hpx, hfirst⟩ := ih x h
      refine ⟨i + 1, by simpa using hget, hpx, ?_⟩
      intro j hj y hy
      cases j with
      | zero =>
        simp at hy
        subst hy
        simpa using hp
      | succ j =>
        exact hfirst j (by omega) y (by simpa using hy)

/-! ### Generator branch specifications -/
theorem _int_between_spec (m : Nat) (s : PyRand) :
    ∃ n : Int, (_int_between m s).1 = .vint n ∧ 0 ≤ n ∧ n ≤ m := by
  refine ⟨((s 0 % (m + 1) : Nat) : Int), rfl, by positivity, ?_⟩
  have h := Nat.mod_lt (s 0) (show 0 < m + 1 by omega)
  exact_mod_cast Nat.le_of_lt_succ h

theorem _char_up_to_spec (n : Nat) (s : PyRand) :
    ∃ str : String, (_char_up_to n s).1 = .vstr str
      ∧ 1 ≤ str.length ∧ str.length ≤ max 1 (min n 255)
      ∧ (n = 0 → str.length = 1) := by
  have hpos : 0 < max 1 (min n 255) := by omega
  refine ⟨_, rfl, ?_, ?_, ?_⟩
  · simp [pystrM, String.length, randint]
  · simp only [pystrM, String.length, randint, List.length_replicate]
    have h := Nat.mod_lt (s 0) (show 0 < max 1 (min n 255) - 1 + 1 by omega)
    omega
  · intro h0
    subst h0
    simp [pystrM, String.length, randint, Nat.mod_one]

theorem escQuotes_eq_bind (l : List Char) :
    escQuotes l = l.flatMap (fun c => if c = '\'' then ['\'', '\''] else [c]) := by
  induction l with
  | nil => simp [escQuotes]
  | cons c t ih =>
    by_cases h : c = '\''
    · subst h
      simp [escQuotes, ih]
    · simp [escQuotes, h, ih]

theorem try_row_ok_row {cols : List Col} {keys : List String} :
    ∀ (fuel : Nat) (seen : List (List Value)) (s : PyRand) row seen' s',
      try_row cols keys fuel seen s = .ok (row, seen', s') →
      ∃ t, row = (gen_row cols t).1 := by
  intro fuel
  induction fuel with
  | zero => intro seen s row seen' s' h; exact absurd h (by simp [try_row])
  | succ fuel ih =>
    intro seen s row seen' s' h
    simp only [try_row] at h
    split at h
    · simp only [Except.ok.injEq, Prod.mk.injEq] at h
      exact ⟨s, h.1.symm⟩
    · split at h
      · exact absurd h (by simp)
      · split at h
        · exact ih seen _ row seen' s' h
        · simp only [Except.ok.injEq, Prod.mk.injEq] at h
          exact ⟨s, h.1.symm⟩

theorem gen_parent_rows_mem {cols : List Col} {keys : List String} :
    ∀ (n : Nat) (rows0 : List Row) (seen0 : List (List Value)) (s : PyRand)
      rows seen s',
      gen_parent_rows cols keys n rows0 seen0 s = .ok (rows, seen, s') →
      ∀ r ∈ rows, r ∈ rows0 ∨ ∃ t, r = (gen_row cols t).1 := by
  intro n
  induction n with
  | zero =>
    intro rows0 seen0 s rows seen s' h r hr
    simp only [gen_parent_rows, Except.ok.injEq, Prod.mk.injEq] at h
    left
    rw [h.1]
    exact hr
  | succ n ih =>
    intro rows0 seen0 s rows seen s' h r hr
    simp only [gen_parent_rows] at h
    split at h
    · exact absurd h (by simp)
    · rename_i row seen1 s1 hok
      rcases ih (rows0 ++ [row]) seen1 s1 rows seen s' h r hr with hmem | hgen
      · rcases List.mem_append.mp hmem with hm | hm
        · left; exact hm
        · right
          simp at hm
          subst hm
          exact try_row_ok_row 200 seen0 s r seen1 s1 hok
      · right; exact hgen

/-! ### Character classification of the numeric renderings -/
theorem natChars_mem_isDigit {n : Nat} : ∀ c ∈ natChars n, c.isDigit = true := by
  rw [natChars_eq]
  exact natDigitsList_all_digits n

theorem intStr_chars (i : Int) : ∀ c ∈ intStr i, c.isDigit = true ∨ c = '-' := by
  unfold intStr
  split
  · intro c hc
    rcases List.mem_cons.mp hc with h | h
    · right; exact h
    · left; exact natChars_mem_isDigit c h
  · intro c hc
    left; exact natChars_mem_isDigit c hc

theorem floatChars_chars (m : Nat) : ∀ c ∈ floatChars m, c.isDigit = true ∨ c = '.' := by
  unfold floatChars
  intro c hc
  rcases List.mem_append.mp hc with h | h
  · left; exact natChars_mem_isDigit c h
  · rcases List.mem_cons.mp h with h | h
    · right; exact h
    · rcases List.mem_append.mp h with h | h
      · left
        have := List.eq_of_mem_replicate h
        subst this
        decide
      · left; exact natChars_mem_isDigit c h

theorem decimalChars_chars (w f sc : Nat) :
    ∀ c ∈ decimalChars w f sc, c.isDigit = true ∨ c = '.' := by
  cases sc with
  | zero =>
    intro c hc
    left; exact natChars_mem_isDigit c hc
  | succ n =>
    intro c hc
    unfold decimalChars at hc
    rcases List.mem_append.mp hc with h | h
    · left; exact natChars_mem_isDigit c h
    · rcases List.mem_cons.mp h with h | h
      · right; exact h
      · rcases List.mem_append.mp h with h | h
        · left
          have := List.eq_of_mem_replicate h
          subst this
          decide
        · left; exact natChars_mem_isDigit c h

theorem stripZeros_spec : ∀ (fuel n : Nat), 0 < n → n ≤ fuel →
    (stripZeros fuel n).1 * 10 ^ (stripZeros fuel n).2 = n
    ∧ (stripZeros fuel n).1 % 10 ≠ 0 ∧ 0 < (stripZeros fuel n).1 := by
  intro fuel
  induction fuel with
  | zero => intro n h0 h1; omega
  | succ fuel ih =>
    intro n h0 h1
    simp only [stripZeros]
    by_cases hc : n % 10 = 0 ∧ n ≠ 0
    · rw [if_pos hc]
      have hlt : n / 10 < n := Nat.div_lt_self h0 (by omega)
      have hdiv : n / 10 ≤ fuel := by omega
      have hpos : 0 < n / 10 := by
        rcases hc with ⟨hm, _⟩
        omega
      obtain ⟨he, hr, hp⟩ := ih (n / 10) hpos hdiv
      refine ⟨?_, hr, hp⟩
      rw [pow_succ, ← Nat.mul_assoc, he]
      rcases hc with ⟨hm, _⟩
      omega
    · rw [if_neg hc]
      refine ⟨by simp, ?_, h0⟩
      intro hm
      exact hc ⟨hm, by omega⟩

theorem fracStrip_spec (f : Nat) (h0 : 0 < f) :
    (fracStrip f).1 * 10 ^ (fracStrip f).2 = f
    ∧ (fracStrip f).1 % 10 ≠ 0 ∧ 0 < (fracStrip f).1 :=
  stripZeros_spec f f h0 (Nat.le_refl f)

theorem fracStrip_bounds {f sc : Nat} (h0 : 0 < f) (hf : f < 10 ^ sc) :
    (fracStrip f).2 < sc ∧ (fracStrip f).1 < 10 ^ (sc - (fracStrip f).2) := by
  obtain ⟨he, _, hp⟩ := fracStrip_spec f h0
  have hz : (fracStrip f).2 < sc := by
    by_contra hz
    push_neg at hz
    have h1 : 10 ^ sc ≤ 10 ^ (fracStrip f).2 := Nat.pow_le_pow_right (by omega) hz
    have h2 : 10 ^ (fracStrip f).2 ≤ (fracStrip f).1 * 10 ^ (fracStrip f).2 :=
      Nat.le_mul_of_pos_left _ hp
    omega
  refine ⟨hz, ?_⟩
  have hsplit : 10 ^ (sc - (fracStrip f).2) * 10 ^ (fracStrip f).2 = 10 ^ sc := by
    rw [← pow_add]
    congr 1
    omega
  by_contra hr2
  push_neg at hr2
  have h3 : 10 ^ (sc - (fracStrip f).2) * 10 ^ (fracStrip f).2 ≤
      (fracStrip f).1 * 10 ^ (fracStrip f).2 :=
    Nat.mul_le_mul_right _ hr2
  omega

theorem fracStrip_of_mod {f : Nat} (h : f % 10 ≠ 0) : (fracStrip f).2 = 0 := by
  unfold fracStrip
  cases f with
  | zero => simp at h
  | succ n =>
    simp only [stripZeros]
    rw [if_neg (fun hc => h hc.1)]

theorem decStrChars_shape (c e : Nat) (he : 1 ≤ e) (hpl : e ≤ (natChars c).length + 5) :
    digitsAfterPoint (decStrChars c e) = e
    ∧ digitsBeforePoint (decStrChars c e) = max ((natChars c).length - e) 1 := by
  unfold decStrChars
  rw [if_neg (by omega), if_pos hpl]
  by_cases hd : e < (natChars c).length
  · rw [if_pos hd]
    have htake : ∀ x ∈ (natChars c).take ((natChars c).length - e), (x != '.') = true :=
      fun x hx => natChars_not_dot c x (List.take_subset _ _ hx)
    constructor
    · unfold digitsAfterPoint
      rw [dropWhile_append_all htake, List.dropWhile_cons, if_neg (by decide)]
      simp only [List.drop_succ_cons, List.drop_zero, List.length_drop]
      omega
    · unfold digitsBeforePoint
      rw [takeWhile_append_all htake, List.takeWhile_cons, if_neg (by decide)]
      simp only [List.append_nil, List.length_take]
      omega
  · rw [if_neg hd]
    constructor
    · unfold digitsAfterPoint
      rw [List.dropWhile_cons, if_pos (by decide), List.dropWhile_cons, if_neg (by decide)]
      simp only [List.drop_succ_cons, List.drop_zero, List.length_append,
        List.length_replicate]
      omega
    · unfold digitsBeforePoint
      rw [List.takeWhile_cons, if_pos (by decide), List.takeWhile_cons, if_neg (by decide)]
      simp only [List.length_cons, List.length_nil]
      omega

theorem pyDecChars_shape (w f sc left : Nat) (hf : f < 10 ^ sc) (hw : w < 10 ^ left)
    (hsc : sc ≤ 6) :
    digitsAfterPoint (pyDecChars w f sc) ≤ sc
    ∧ (f ≠ 0 → digitsAfterPoint (pyDecChars w f sc) = sc - (fracStrip f).2)
    ∧ (f = 0 → digitsAfterPoint (pyDecChars w f sc) = 0)
    ∧ digitsBeforePoint (pyDecChars w f sc) ≤ max left 1 := by
  by_cases h0 : sc = 0 ∨ f = 0
  · have hred : pyDecChars w f sc = natChars w := by
      unfold pyDecChars decCoeffExp
      rw [if_pos h0]
      unfold decStrChars
      rw [if_pos rfl]
    rw [hred]
    have hafter : digitsAfterPoint (natChars w) = 0 := by
      unfold digitsAfterPoint
      rw [dropWhile_all_nil (natChars_not_dot w)]
      simp
    refine ⟨by omega, ?_, fun _ => hafter, ?_⟩
    · intro hfne
      rcases h0 with h0 | h0
      · rw [h0] at hf
        simp at hf
        exact absurd hf hfne
      · exact absurd h0 hfne
    · unfold digitsBeforePoint
      rw [takeWhile_all_eq (natChars_not_dot w)]
      apply natChars_length_le _ (by omega)
      calc w < 10 ^ left := hw
        _ ≤ 10 ^ max left 1 := Nat.pow_le_pow_right (by omega) (by omega)
  · push_neg at h0
    obtain ⟨hsc0, hf0⟩ := h0
    have hfpos : 0 < f := by omega
    obtain ⟨heqf, hmod, hrpos⟩ := fracStrip_spec f hfpos
    obtain ⟨hz, hrlt⟩ := fracStrip_bounds hfpos hf
    have hred : pyDecChars w f sc =
        decStrChars (w * 10 ^ (sc - (fracStrip f).2) + (fracStrip f).1)
          (sc - (fracStrip f).2) := by
      unfold pyDecChars decCoeffExp
      rw [if_neg (by push_neg; exact ⟨hsc0, hf0⟩)]
    set r := (fracStrip f).1 with hrdef
    set z := (fracStrip f).2 with hzdef
    set e := sc - z with hedef
    set c := w * 10 ^ e + r with hcdef
    have he1 : 1 ≤ e := by omega
    have hclt : c < 10 ^ (left + e) := by
      have h1 : w * 10 ^ e ≤ (10 ^ left - 1) * 10 ^ e :=
        Nat.mul_le_mul_right _ (by omega)
      have h3 : (10 ^ left - 1) * 10 ^ e = 10 ^ left * 10 ^ e - 10 ^ e := by
        rw [Nat.sub_mul, one_mul]
      have h4 : 10 ^ e ≤ 10 ^ left * 10 ^ e :=
        Nat.le_mul_of_pos_left _ (pow_pos (by omega) left)
      rw [pow_add]
      omega
    have hdle : (natChars c).length ≤ left + e := natChars_length_le hclt (by omega)
    have hdge : 1 ≤ (natChars c).length := by
      rw [natChars_eq]
      cases hnc : natDigitsList c with
      | nil => exact absurd hnc (natDigitsList_ne_nil c)
      | cons a t => simp
    have hpl : e ≤ (natChars c).length + 5 := by omega
    obtain ⟨hafter, hbefore⟩ := decStrChars_shape c e he1 hpl
    rw [hred]
    refine ⟨by omega, fun _ => hafter, fun hfz => absurd hfz hf0, ?_⟩
    rw [hbefore]
    omega

/-- C2 (amended): every generated fixed-point decimal with effective
precision `P` (the declared precision, or 10 when the declared precision is
0) and scale `S` is exactly `w + f/10^S` with the whole part drawn from
`[0, 10^(P-S)-1]` (0 when `P-S ≤ 0`) and the fractional part drawn from
`[0, 10^S-1]`.  Its decimal text (`str(Decimal)`, which strips the
fraction's trailing zeros; stated for `P ≤ 28`, where the 28-digit context
never rounds, and `S ≤ 6`, where the text is never in scientific notation)
has at most `S` digits after the decimal point — exactly `S` minus the
number of trailing zeros of `f` when `f ≠ 0`, hence exactly `S` when `10`
does not divide `f`, and none (no decimal point) when `f = 0` — and at most
`max (P-S) 1` digits before it. -/
theorem C2_decimal_text_shape (p sc : Nat) (s : PyRand)
    (hP : (if p = 0 then 10 else p) ≤ 28) (hsc : sc ≤ 6) :
    ∃ w f, (_decimal_random p sc s).1 = .vdecimal w f sc
      ∧ w ≤ 10 ^ ((if p = 0 then 10 else p) - sc) - 1
      ∧ f ≤ 10 ^ sc - 1
      ∧ digitsAfterPoint (pyDecChars w f sc) ≤ sc
      ∧ (f ≠ 0 → digitsAfterPoint (pyDecChars w f sc) = sc - (fracStrip f).2)
      ∧ (f % 10 ≠ 0 → digitsAfterPoint (pyDecChars w f sc) = sc)
      ∧ (f = 0 → digitsAfterPoint (pyDecChars w f sc) = 0)
      ∧ digitsBeforePoint (pyDecChars w f sc) ≤ max ((if p = 0 then 10 else p) - sc) 1 := by
  have hten : ∀ k : Nat, 0 < 10 ^ k := fun k => pow_pos (by omega) k
  obtain ⟨w, f, heq, hwb, hfb⟩ :
      ∃ w f, (_decimal_random p sc s).1 = .vdecimal w f sc
        ∧ w ≤ 10 ^ ((if p = 0 then 10 else p) - sc) - 1
        ∧ f ≤ 10 ^ sc - 1 := by
    simp only [_decimal_random, randint]
    by_cases hl : 0 < (if p = 0 then 10 else p) - sc
    · rw [if_pos hl]
      by_cases hs0 : 0 < sc
      · rw [if_pos hs0]
        refine ⟨_, _, rfl, ?_, ?_⟩
        · have := Nat.mod_lt (s 0)
            (show 0 < 10 ^ ((if p = 0 then 10 else p) - sc) - 1 + 1 by omega)
          omega
        · have := Nat.mod_lt (s (0 + 1)) (show 0 < 10 ^ sc - 1 + 1 by omega)
          omega
      · rw [if_neg hs0]
        refine ⟨_, _, rfl, ?_, by omega⟩
        have := Nat.mod_lt (s 0)
          (show 0 < 10 ^ ((if p = 0 then 10 else p) - sc) - 1 + 1 by omega)
        omega
    · rw [if_neg hl]
      by_cases hs0 : 0 < sc
      · rw [if_pos hs0]
        refine ⟨_, _, rfl, by omega, ?_⟩
        have := Nat.mod_lt (s 0) (show 0 < 10 ^ sc - 1 + 1 by omega)
        omega
      · rw [if_neg hs0]
        exact ⟨_, _, rfl, by omega, by omega⟩
  have hflt : f < 10 ^ sc := by
    have := hten sc
    omega
  have hwlt : w < 10 ^ ((if p = 0 then 10 else p) - sc) := by
    have := hten ((if p = 0 then 10 else p) - sc)
    omega
  obtain ⟨hle, hnz, hzero, hbef⟩ :=
    pyDecChars_shape w f sc ((if p = 0 then 10 else p) - sc) hflt hwlt hsc
  refine ⟨w, f, heq, hwb, hfb, hle, hnz, ?_, hzero, hbef⟩
  intro hmod
  have hfne : f ≠ 0 := by omega
  rw [hnz hfne, fracStrip_of_mod hmod]
  omega

/-- C2 witness: the amended statement at a `numeric(5,2)` configuration. -/
theorem C2_decimal_text_shape_witness :
    ∃ w f, (_decimal_random 5 2 sW).1 = .vdecimal w f 2
      ∧ w ≤ 10 ^ ((if (5 : Nat) = 0 then 10 else 5) - 2) - 1
      ∧ f ≤ 10 ^ 2 - 1
      ∧ digitsAfterPoint (pyDecChars w f 2) ≤ 2
      ∧ (f ≠ 0 → digitsAfterPoint (pyDecChars w f 2) = 2 - (fracStrip f).2)
      ∧ (f % 10 ≠ 0 → digitsAfterPoint (pyDecChars w f 2) = 2)
      ∧ (f = 0 → digitsAfterPoint (pyDecChars w f 2) = 0)
      ∧ digitsBeforePoint (pyDecChars w f 2) ≤ max ((if (5 : Nat) = 0 then 10 else 5) - 2) 1 :=
  C2_decimal_text_shape 5 2 sW (by decide) (by decide)

/-- C2 counterexample, refuting the claim as stated in two ways: a
`numeric(5,2)` column drawing whole part 123 and fraction 40 produces the
`Decimal` text `123.4` — one digit after the decimal point, not exactly
`S = 2`, because the division strips the fraction's trailing zero; and a
`numeric(2,2)` column produces `0.05` — one digit before the decimal point,
more than `P - S = 0`. -/
theorem C2_counterexample :
    (generate_random ⟨"price", "numeric", "5,2"⟩ (fun i => if i = 0 then 123 else 40)).1
        = .vdecimal 123 40 2
    ∧ String.mk (pyDecChars 123 40 2) = "123.4"
    ∧ ¬(digitsAfterPoint (pyDecChars 123 40 2) = 2)
    ∧ (generate_random ⟨"amount", "numeric", "2,2"⟩ (fun _ => 5)).1 = .vdecimal 0 5 2
    ∧ String.mk (pyDecChars 0 5 2) = "0.05"
    ∧ ¬(digitsBeforePoint (pyDecChars 0 5 2) ≤ 2 - 2) := by
  refine ⟨by decide, by decide, by decide, by decide, by decide, by decide⟩

/-- C7: the three integer-family checks of `generate_random` fire in source
order on the normalized type string, and first match wins: `bigint`/`int8`
gives an integer in `[0, 9·10^9]`; failing that, `smallint`/`int2` gives
`[0, 32000]`; failing those, `integer`/`int`/`int4` gives `[0, 10^6]`. -/
theorem C7_integer_families (c : Col) (s : PyRand) :
    ((containsStr (normType c.type) "bigint" = true ∨ containsStr (normType c.type) "int8" = true) →
      ∃ n : Int, (generate_random c s).1 = .vint n ∧ 0 ≤ n ∧ n ≤ 9000000000)
    ∧ (containsStr (normType c.type) "bigint" = false →
       containsStr (normType c.type) "int8" = false →
       (containsStr (normType c.type) "smallint" = true ∨ containsStr (normType c.type) "int2" = true) →
      ∃ n : Int, (generate_random c s).1 = .vint n ∧ 0 ≤ n ∧ n ≤ 32000)
    ∧ (containsStr (normType c.type) "bigint" = false →
       containsStr (normType c.type) "int8" = false →
       containsStr (normType c.type) "smallint" = false →
       containsStr (normType c.type) "int2" = false →
       (containsStr (normType c.type) "integer" = true ∨ containsStr (normType c.type) "int" = true ∨
        containsStr (normType c.type) "int4" = true) →
      ∃ n : Int, (generate_random c s).1 = .vint n ∧ 0 ≤ n ∧ n ≤ 1000000) := by
  refine ⟨?_, ?_, ?_⟩
  · intro h
    rcases h with h | h <;>
      · simp only [generate_random, h, Bool.true_or, Bool.or_true, if_true]
        exact _int_between_spec 9000000000 s
  · intro h1 h2 h
    rcases h with h | h <;>
      · simp only [generate_random, h1, h2, h, Bool.or_self, Bool.false_or, Bool.true_or,
          Bool.or_true, if_false, if_true]
        exact _int_between_spec 32000 s
  · intro h1 h2 h3 h4 h
    rcases h with h | h | h <;>
      · simp only [generate_random, h1, h2, h3, h4, h, Bool.or_self, Bool.false_or,
          Bool.true_or, Bool.or_true, if_false, if_true]
        exact _int_between_spec 1000000 s

/-- C7 witness: the three families at concrete columns. -/
theorem C7_integer_families_witness :
    (∃ n : Int, (generate_random ⟨"a", "bigint", ""⟩ sW).1 = .vint n ∧ 0 ≤ n ∧ n ≤ 9000000000)
    ∧ (∃ n : Int, (generate_random ⟨"b", "smallint", ""⟩ sW).1 = .vint n ∧ 0 ≤ n ∧ n ≤ 32000)
    ∧ (∃ n : Int, (generate_random ⟨"c", "integer", ""⟩ sW).1 = .vint n ∧ 0 ≤ n ∧ n ≤ 1000000) :=
  ⟨(C7_integer_families ⟨"a", "bigint", ""⟩ sW).1 (Or.inl (by decide)),
   (C7_integer_families ⟨"b", "smallint", ""⟩ sW).2.1 (by decide) (by decide) (Or.inl (by decide)),
   (C7_integer_families ⟨"c", "integer", ""⟩ sW).2.2 (by decide) (by decide) (by decide) (by decide)
     (Or.inl (by decide))⟩

/-- C8: the SQL-literal formatter maps an absent value to bare `NULL`,
booleans to uppercase `TRUE`/`FALSE`, the three numeric shapes to bare
numeric text (digits with at most a sign or decimal point, never quoted),
date-times to quoted `YYYY-MM-DD HH:MM:SS`, dates to quoted `YYYY-MM-DD`,
times to quoted `HH:MM:SS`, and any other value to single-quoted text with
each internal single quote doubled. -/
theorem C8_sql_literal_rules :
    to_sql_literal .vnull = "NULL"
    ∧ (∀ b, to_sql_literal (.vbool b) = if b then "TRUE" else "FALSE")
    ∧ (∀ i, to_sql_literal (.vint i) = String.mk (intStr i)
        ∧ ∀ c ∈ intStr i, c.isDigit = true ∨ c = '-')
    ∧ (∀ m, to_sql_literal (.vfloat m) = String.mk (floatChars m)
        ∧ ∀ c ∈ floatChars m, c.isDigit = true ∨ c = '.')
    ∧ (∀ w f sc, to_sql_literal (.vdecimal w f sc) = String.mk (decimalChars w f sc)
        ∧ ∀ c ∈ decimalChars w f sc, c.isDigit = true ∨ c = '.')
    ∧ (∀ y mo d h mi se, to_sql_literal (.vdatetime y mo d h mi se) =
        String.mk ('\'' :: (isoDateChars y mo d ++ ' ' :: isoTimeChars h mi se ++ ['\''])))
    ∧ (∀ y mo d, to_sql_literal (.vdate y mo d) =
        String.mk ('\'' :: (isoDateChars y mo d ++ ['\''])))
    ∧ (∀ h mi se, to_sql_literal (.vtime h mi se) =
        String.mk ('\'' :: (isoTimeChars h mi se ++ ['\''])))
    ∧ (∀ t : String, (to_sql_literal (.vstr t)).data =
        '\'' :: (t.data.flatMap (fun c => if c = '\'' then ['\'', '\''] else [c]) ++ ['\''])) := by
  refine ⟨rfl, fun b => rfl, fun i => ⟨rfl, intStr_chars i⟩, fun m => ⟨rfl, floatChars_chars m⟩,
    fun w f sc => ⟨rfl, decimalChars_chars w f sc⟩, fun y mo d h mi se => rfl,
    fun y mo d => rfl, fun h mi se => rfl, fun t => ?_⟩
  show ('\'' :: (escQuotes t.data ++ ['\''])) = _
  rw [escQuotes_eq_bind]

/-- C10: for a column that reaches the varying-length string rule (its
normalized type contains `varchar`/`nvarchar`/`varying` and triggers none of
the earlier dispatch rules), the declared maximum length `L` (first
length-spec component, default 32) is clamped to `[1, 255]`, so the
generated string's length lies in `[1, min (max L 1) 255]`; in particular
`L > 255` never yields more than 255 characters and `L = 0` yields exactly
one character. -/
theorem C10_varchar_clamp (nm ty lens : String) (s : PyRand)
    (hvc : containsStr (normType ty) "varchar" = true ∨
           containsStr (normType ty) "nvarchar" = true ∨
           containsStr (normType ty) "varying" = true)
    (h1 : containsStr (normType ty) "bigint" = false)
    (h2 : containsStr (normType ty) "int8" = false)
    (h3 : containsStr (normType ty) "smallint" = false)
    (h4 : containsStr (normType ty) "int2" = false)
    (h5 : containsStr (normType ty) "integer" = false)
    (h6 : containsStr (normType ty) "int" = false)
    (h7 : containsStr (normType ty) "int4" = false)
    (h8 : containsStr (normType ty) "numeric" = false)
    (h9 : containsStr (normType ty) "decimal" = false)
    (h10 : containsStr (normType ty) "float" = false)
    (h11 : containsStr (normType ty) "double" = false)
    (h12 : containsStr (normType ty) "real" = false)
    (h13 : containsStr (normType ty) "uuid" = false)
    (h14 : containsStr (normType ty) "bool" = false)
    (h15 : stripS (normType ty) ≠ "date")
    (h16 : containsStr (normType ty) "timestamp" = false)
    (h17 : stripS (normType ty) ≠ "time")
    (h18 : listStartsWith (normType ty).data "time ".data = false) :
    ∃ str : String, (generate_random ⟨nm, ty, lens⟩ s).1 = .vstr str
      ∧ 1 ≤ str.length
      ∧ str.length ≤
          min (max (if trimL lens.data ≠ [] then lensFirst (trimL lens.data) else 32) 1) 255
      ∧ ((if trimL lens.data ≠ [] then lensFirst (trimL lens.data) else 32) = 0 →
          str.length = 1) := by
  have hL : max 1 (min (if trimL lens.data ≠ [] then lensFirst (trimL lens.data) else 32) 255) =
      min (max (if trimL lens.data ≠ [] then lensFirst (trimL lens.data) else 32) 1) 255 := by
    omega
  simp only [generate_random, h1, h2, h3, h4, h5, h6, h7, h8, h9, h10, h11, h12, h13, h14,
    h16, h18, Bool.or_self, Bool.false_or, Bool.or_false, if_false, if_neg h15,
    decide_eq_false h17, if_neg (by simp [h17, h18] : ¬(stripS (normType ty) = "time" ∨
      listStartsWith (normType ty).data "time ".data = true))]
  rcases hvc with h | h | h <;>
    · simp only [h, Bool.true_or, Bool.or_true, if_true]
      obtain ⟨str, he, hlo, hhi, hz⟩ :=
        _char_up_to_spec (if trimL lens.data ≠ [] then lensFirst (trimL lens.data) else 32) s
      exact ⟨str, he, hlo, hL ▸ hhi, hz⟩

/-- C10 witness: a `varchar(300)` column is clamped to 255 and a
`varchar(0)` column yields exactly one character. -/
theorem C10_varchar_clamp_witness :
    (∃ str : String, (generate_random ⟨"code", "varchar", "300"⟩ sW).1 = .vstr str
      ∧ 1 ≤ str.length
      ∧ str.length ≤
          min (max (if trimL "300".data ≠ [] then lensFirst (trimL "300".data) else 32) 1) 255
      ∧ ((if trimL "300".data ≠ [] then lensFirst (trimL "300".data) else 32) = 0 →
          str.length = 1))
    ∧ (∃ str : String, (generate_random ⟨"code", "varchar", "0"⟩ sW).1 = .vstr str
      ∧ 1 ≤ str.length
      ∧ str.length ≤
          min (max (if trimL "0".data ≠ [] then lensFirst (trimL "0".data) else 32) 1) 255
      ∧ ((if trimL "0".data ≠ [] then lensFirst (trimL "0".data) else 32) = 0 →
          str.length = 1)) :=
  ⟨C10_varchar_clamp "code" "varchar" "300" sW (Or.inl (by decide)) (by decide) (by decide)
      (by decide) (by decide) (by decide) (by decide) (by decide) (by decide) (by decide)
      (by decide) (by decide) (by decide) (by decide) (by decide) (by decide) (by decide)
      (by decide) (by decide),
   C10_varchar_clamp "code" "varchar" "0" sW (Or.inl (by decide)) (by decide) (by decide)
      (by decide) (by decide) (by decide) (by decide) (by decide) (by decide) (by decide)
      (by decide) (by decide) (by decide) (by decide) (by decide) (by decide) (by decide)
      (by decide) (by decide)⟩

/-- C3: for every run with a non-empty key-field list, the composite-key
tuples (the tuple of values at the key-field columns) of all accepted parent
rows are pairwise distinct. -/
theorem C3_composite_key_unique (cols : List Col) (keys : List String) (n : Nat)
    (s : PyRand) (rows : List Row) (seen : List (List Value)) (s' : PyRand)
    (hne : keys ≠ [])
    (h : gen_parent_rows cols keys n [] [] s = .ok (rows, seen, s')) :
    (rows.map (lookupTuple keys)).Pairwise (· ≠ ·) :=
  gen_parent_rows_pairwise hne n [] [] s rows seen s' h (by simp) (by simp)

/-- C3 witness: two accepted rows of an `id integer` parent, keyed on `id`,
have distinct key tuples. -/
theorem C3_composite_key_unique_witness :
    ∃ rows, rowsOf (gen_parent_rows customerCols ["id"] 2 [] [] sW) = some rows
      ∧ (rows.map (lookupTuple ["id"])).Pairwise (· ≠ ·) := by
  have hok : (rowsOf (gen_parent_rows customerCols ["id"] 2 [] [] sW)).isSome = true := by decide
  match hg : gen_parent_rows customerCols ["id"] 2 [] [] sW with
  | .ok (rows, seen, s') =>
    refine ⟨rows, rfl, ?_⟩
    exact C3_composite_key_unique customerCols ["id"] 2 sW rows seen s' (by simp) hg
  | .error e =>
    rw [hg] at hok
    simp [rowsOf] at hok

/-- C4 (amended): provided every configured key field names a column of the
parent table, parent-row generation fails if and only if, after some number
of accepted rows, 200 consecutive attempts each produce a composite-key
tuple already recorded for a prior accepted row (and the failure is exactly
`DuplicateKeySpaceExhausted`); duplicate attempts are discarded and retried,
and a successful run accepts exactly `numRows` rows. -/
theorem C4_duplicate_retry (cols : List Col) (keys : List String) (n : Nat) (s : PyRand)
    (hk : ∀ k ∈ keys, k ∈ cols.map Col.name) :
    (∀ e, gen_parent_rows cols keys n [] [] s = .error e → e = .dupExhausted)
    ∧ (keys ≠ [] →
        (gen_parent_rows cols keys n [] [] s = .error .dupExhausted ↔
          ∃ k, k < n ∧ ∃ rows' seen' s',
            gen_parent_rows cols keys k [] [] s = .ok (rows', seen', s') ∧
            ∀ j < 200, ∃ comp,
              keyTuple? (gen_row cols ((genStep cols)^[j] s')).1 keys = some comp ∧
              comp ∈ seen'))
    ∧ (∀ rows seen s', gen_parent_rows cols keys n [] [] s = .ok (rows, seen, s') →
        rows.length = n) := by
  have hall : ∀ t : PyRand, (keyTuple? (gen_row cols t).1 keys).isSome :=
    fun t => keyTuple?_isSome _ keys (fun k hkk => gen_row_lookup_isSome (hk k hkk) t)
  refine ⟨?_, ?_, ?_⟩
  · intro e he
    exact gen_parent_rows_error hall n [] [] s e he
  · intro hne
    rw [gen_parent_rows_error_iff]
    constructor
    · rintro ⟨k, hkn, rows', seen', s', hgen, htr⟩
      exact ⟨k, hkn, rows', seen', s', hgen,
        (try_row_error_iff hne hall 200 seen' s').mp htr⟩
    · rintro ⟨k, hkn, rows', seen', s', hgen, h200⟩
      exact ⟨k, hkn, rows', seen', s', hgen,
        (try_row_error_iff hne hall 200 seen' s').mpr h200⟩
  · intro rows seen s' h
    have := gen_parent_rows_length n [] [] s rows seen s' h
    simpa using this

/-- C4 witness: the amended statement at a concrete configuration whose key
field is a column of the parent. -/
theorem C4_duplicate_retry_witness :
    (∀ e, gen_parent_rows customerCols ["id"] 1 [] [] sW = .error e → e = .dupExhausted)
    ∧ ((["id"] : List String) ≠ [] →
        (gen_parent_rows customerCols ["id"] 1 [] [] sW = .error .dupExhausted ↔
          ∃ k, k < 1 ∧ ∃ rows' seen' s',
            gen_parent_rows customerCols ["id"] k [] [] sW = .ok (rows', seen', s') ∧
            ∀ j < 200, ∃ comp,
              keyTuple? (gen_row customerCols ((genStep customerCols)^[j] s')).1 ["id"] = some comp ∧
              comp ∈ seen'))
    ∧ (∀ rows seen s', gen_parent_rows customerCols ["id"] 1 [] [] sW = .ok (rows, seen, s') →
        rows.length = 1) :=
  C4_duplicate_retry customerCols ["id"] 1 sW (by decide)

/-- C4 counterexample: with a key field that is not a column of the parent
table, the very first attempt fails with a key-lookup error (Python's
`KeyError`), so a fatal error is raised although no sequence of 200
duplicate-tuple attempts occurred — the "only if" direction of the claim
fails, and the error is not `DuplicateKeySpaceExhausted`. -/
theorem C4_counterexample :
    errOf (gen_parent_rows [⟨"a", "integer", ""⟩] ["k"] 1 [] [] sW) = some .keyError
    ∧ GenError.keyError ≠ GenError.dupExhausted := by
  refine ⟨by decide, by decide⟩

/-- C5: a child table with multiplier `m` over `N` parent rows yields
exactly `N*m` rows in parent-row-major, repetition-minor order; inside the
block of parent row `i`, every foreign-mapped column whose mapped parent
column exists in that parent row carries the parent value verbatim, and
every other column (for duplicate-free column lists) carries an
independently generated value. -/
theorem C5_child_blocks (cols : List Col) (fkey : List (String × String)) (m : Nat)
    (prows : List Row) (s : PyRand) :
    (gen_child_rows cols fkey m prows s).1.length = prows.length * m
    ∧ (∀ i j p cname pc v, j < m → prows.get? i = some p →
        List.lookup cname fkey = some pc → List.lookup pc p = some v →
        cname ∈ cols.map Col.name →
        ∃ r, (gen_child_rows cols fkey m prows s).1.get? (i * m + j) = some r ∧
          List.lookup cname r = some v)
    ∧ ((cols.map Col.name).Nodup →
        ∀ i j p c, j < m → prows.get? i = some p → c ∈ cols →
        (∀ pc, List.lookup c.name fkey = some pc → List.lookup pc p = none) →
        ∃ r t, (gen_child_rows cols fkey m prows s).1.get? (i * m + j) = some r ∧
          List.lookup c.name r = some ((generate_random c t).1)) := by
  refine ⟨gen_child_rows_length cols fkey m prows s, ?_, ?_⟩
  · intro i j p cname pc v hj hp hc hv hmem
    obtain ⟨t, ht⟩ := gen_child_rows_get? cols fkey m prows s i j p hj hp
    exact ⟨_, ht, build_child_row_lookup_copy hc hv cols [] t (Or.inl hmem)⟩
  · intro hnd i j p c hj hp hcmem hgen
    obtain ⟨t, ht⟩ := gen_child_rows_get? cols fkey m prows s i j p hj hp
    obtain ⟨t', ht'⟩ := build_child_row_lookup_gen cols c hcmem hnd hgen [] t
    exact ⟨_, t', ht, ht'⟩

/-- C5 witness: one parent row, multiplier 2: the second row of the block
copies the parent's `id` into `customer_id`, and the non-mapped `id` column
is generated. -/
theorem C5_child_blocks_witness :
    (gen_child_rows orderCols [("customer_id", "id")] 2 [[("id", Value.vint 7)]] sW).1.length
        = 1 * 2
    ∧ (∃ r, (gen_child_rows orderCols [("customer_id", "id")] 2 [[("id", Value.vint 7)]] sW).1.get?
          (0 * 2 + 1) = some r ∧ List.lookup "customer_id" r = some (Value.vint 7))
    ∧ (∃ r t, (gen_child_rows orderCols [("customer_id", "id")] 2 [[("id", Value.vint 7)]] sW).1.get?
          (0 * 2 + 0) = some r ∧
          List.lookup "id" r = some ((generate_random ⟨"id", "integer", ""⟩ t).1)) := by
  refine ⟨(C5_child_blocks orderCols [("customer_id", "id")] 2 [[("id", Value.vint 7)]] sW).1, ?_, ?_⟩
  · exact (C5_child_blocks orderCols [("customer_id", "id")] 2 [[("id", Value.vint 7)]] sW).2.1
      0 1 [("id", Value.vint 7)] "customer_id" "id" (Value.vint 7)
      (by omega) (by decide) (by decide) (by decide) (by decide)
  · exact (C5_child_blocks orderCols [("customer_id", "id")] 2 [[("id", Value.vint 7)]] sW).2.2
      (by decide) 0 0 [("id", Value.vint 7)] ⟨"id", "integer", ""⟩
      (by omega) (by decide) (by decide)
      (by
        intro pc hpc
        have : List.lookup "id" [("customer_id", "id")] = (none : Option String) := by decide
        rw [this] at hpc
        exact absurd hpc (by simp))

/-- C9: the constraint skip is a raw string-prefix test: any post-table-name
line (other than a terminator line) whose lowercased trimmed text starts
with one of the fixed keywords is dropped without touching the column list,
so columns named `key_id`, `checksum`, `index_no`, `references_count` are
silently omitted while parsing continues (here only `id` and `name`
survive). -/
theorem C9_constraint_prefix_skip :
    (∀ (raw t : String) (cols : List Col) (rest : List String),
       trimL raw.data ≠ [] →
       listStartsWith (trimL raw.data) ")".data = false →
       listEndsWith (trimL raw.data) ");".data = false →
       startsWithAny (toLowerL (trimL raw.data)) constraint_starts = true →
       parse_lines (raw :: rest) (some t) cols = parse_lines rest (some t) cols)
    ∧ parse_schema_file c9Lines =
        (some "gadgets", [⟨"id", "integer", ""⟩, ⟨"name", "varchar", "10"⟩]) := by
  constructor
  · intro raw t cols rest h0 h1 h2 h3
    simp [parse_lines, if_neg h0, h1, h2, h3]
  · decide

/-- C9 witness: the skip fires on the concrete line `key_id integer,`. -/
theorem C9_constraint_prefix_skip_witness :
    parse_lines ["  key_id integer,"] (some "t") [] = parse_lines [] (some "t") [] :=
  C9_constraint_prefix_skip.1 "  key_id integer," "t" [] []
    (by decide) (by decide) (by decide) (by decide)

theorem parsedKeys_empty_string : parsedKeys "" = [] := rfl

theorem choose_parent_pred_iff {key_fields : String} (hne : parsedKeys key_fields ≠ [])
    (tc : String × List Col) :
    ((!(parsedKeys key_fields).isEmpty &&
        (parsedKeys key_fields).all (fun k => (tc.2.map Col.name).contains k)) = true ↔
      ∀ k ∈ parsedKeys key_fields, k ∈ tc.2.map Col.name) := by
  rw [Bool.and_eq_true]
  constructor
  · intro h k hk
    have := List.all_eq_true.mp h.2 k hk
    simpa using this
  · intro h
    constructor
    · simpa [List.isEmpty_iff] using hne
    · exact List.all_eq_true.mpr (fun k hk => by simpa using h k hk)

/-- C6: the parent table defaults to the first table of the SchemaSet; a
non-empty parsed key-field list overrides it with the first table (in
iteration order) whose column names include every key field; if none
qualifies, the default stands. -/
theorem C6_parent_selection (schemas : List (String × List Col)) (key_fields : String)
    (first : String × List Col) (rest : List (String × List Col))
    (hs : schemas = first :: rest) :
    (parsedKeys key_fields = [] → choose_parent schemas key_fields first.1 = first.1)
    ∧ (parsedKeys key_fields ≠ [] →
       (∃ tc ∈ schemas, ∀ k ∈ parsedKeys key_fields, k ∈ tc.2.map Col.name) →
       ∃ i tc, schemas.get? i = some tc
         ∧ choose_parent schemas key_fields first.1 = tc.1
         ∧ (∀ k ∈ parsedKeys key_fields, k ∈ tc.2.map Col.name)
         ∧ ∀ j < i, ∀ tc', schemas.get? j = some tc' →
             ¬(∀ k ∈ parsedKeys key_fields, k ∈ tc'.2.map Col.name))
    ∧ (parsedKeys key_fields ≠ [] →
       (∀ tc ∈ schemas, ¬(∀ k ∈ parsedKeys key_fields, k ∈ tc.2.map Col.name)) →
       choose_parent schemas key_fields first.1 = first.1) := by
  refine ⟨?_, ?_, ?_⟩
  · intro hk
    by_cases hkf : key_fields = ""
    · simp [choose_parent, hkf]
    · unfold choose_parent
      rw [if_pos hkf]
      have hfind : schemas.find? (fun tc => !(parsedKeys key_fields).isEmpty &&
          (parsedKeys key_fields).all (fun k => (tc.2.map Col.name).contains k)) = none := by
        apply List.find?_eq_none.mpr
        intro x _
        simp [hk]
      rw [hfind]
  · intro hne hex
    have hkf : key_fields ≠ "" := by
      intro he
      rw [he, parsedKeys_empty_string] at hne
      exact hne rfl
    unfold choose_parent
    rw [if_pos hkf]
    obtain ⟨tc0, htc0, hq0⟩ := hex
    have hsome : (schemas.find? (fun tc => !(parsedKeys key_fields).isEmpty &&
        (parsedKeys key_fields).all (fun k => (tc.2.map Col.name).contains k))).isSome := by
      rw [List.find?_isSome]
      exact ⟨tc0, htc0, (choose_parent_pred_iff hne tc0).mpr hq0⟩
    obtain ⟨res, hres⟩ := Option.isSome_iff_exists.mp hsome
    obtain ⟨i, hget, hp, hfirst⟩ := find?_first _ schemas res hres
    rw [hres]
    have hpred : (!(parsedKeys key_fields).isEmpty &&
        (parsedKeys key_fields).all (fun k => (res.2.map Col.name).contains k)) = true := by
      simpa using hp
    refine ⟨i, res, hget, rfl, (choose_parent_pred_iff hne res).mp hpred, ?_⟩
    intro j hj tc' hj' hq'
    have htrue := (choose_parent_pred_iff hne tc').mpr hq'
    have hfalse := hfirst j hj tc' hj'
    simp only [htrue] at hfalse
    exact absurd hfalse (by simp)
  · intro hne hall
    have hkf : key_fields ≠ "" := by
      intro he
      rw [he, parsedKeys_empty_string] at hne
      exact hne rfl
    unfold choose_parent
    rw [if_pos hkf]
    have hfind : schemas.find? (fun tc => !(parsedKeys key_fields).isEmpty &&
        (parsedKeys key_fields).all (fun k => (tc.2.map Col.name).contains k)) = none := by
      apply List.find?_eq_none.mpr
      intro x hx
      have hnp : ¬((!(parsedKeys key_fields).isEmpty &&
          (parsedKeys key_fields).all (fun k => (x.2.map Col.name).contains k)) = true) :=
        fun hb => hall x hx ((choose_parent_pred_iff hne x).mp hb)
      simpa using hnp
    rw [hfind]

/-- C6 witness: with key field `customer_id`, the second table (`Order`) is
the first qualifier and overrides the `Customer` default. -/
theorem C6_parent_selection_witness :
    ∃ i tc, schemasW.get? i = some tc
      ∧ choose_parent schemasW "customer_id" "Customer" = tc.1
      ∧ (∀ k ∈ parsedKeys "customer_id", k ∈ tc.2.map Col.name)
      ∧ ∀ j < i, ∀ tc', schemasW.get? j = some tc' →
          ¬(∀ k ∈ parsedKeys "customer_id", k ∈ tc'.2.map Col.name) :=
  (C6_parent_selection schemasW "customer_id" ("Customer", customerCols)
      [("Order", orderCols)] rfl).2.1
    (by decide)
    ⟨("Order", orderCols), by decide, by decide⟩

/-- With the Customer file first, the run reduces to: generate 3 keyed
Customer rows, then 6 Order rows with multiplier 2 and the
`customer_id=id` copy map. -/
theorem main_cli_CO_reduce (s : PyRand) :
    main_cli filesCO "id" 3 "Order=2" "customer_id=id" s =
      match gen_parent_rows customerCols ["id"] 3 [] [] s with
      | .error e => .error e
      | .ok (prows, _, s1) =>
        .ok [("Customer", prows),
             ("Order", (gen_child_rows orderCols [("customer_id", "id")] 2 prows s1).1)] := rfl

/-- C1 (amended): over the two-file directory with the Customer file listed
before the Order file, every successful run yields exactly 3 Customer rows
with pairwise-distinct `id` values and 6 Order rows in which the rows of
block `i` (indices `2i` and `2i+1`) carry the `id` of Customer row `i` in
`customer_id` — the 3 ids each repeated twice consecutively. -/
theorem C1_end_to_end (s : PyRand) (out : List (String × List Row))
    (h : main_cli filesCO "id" 3 "Order=2" "customer_id=id" s = .ok out) :
    ∃ crows orows, out = [("Customer", crows), ("Order", orows)]
      ∧ crows.length = 3
      ∧ (crows.map (fun r => List.lookup "id" r)).Pairwise (· ≠ ·)
      ∧ orows.length = 6
      ∧ (∀ i j ci, i < 3 → j < 2 → crows.get? i = some ci →
          ∃ v oi, List.lookup "id" ci = some v
            ∧ orows.get? (i * 2 + j) = some oi
            ∧ List.lookup "customer_id" oi = some v) := by
  rw [main_cli_CO_reduce] at h
  cases hg : gen_parent_rows customerCols ["id"] 3 [] [] s with
  | error e =>
    rw [hg] at h
    exact absurd h (by simp)
  | ok t =>
    obtain ⟨prows, seen, s1⟩ := t
    rw [hg] at h
    simp only [Except.ok.injEq] at h
    subst h
    have hlen : prows.length = 3 := by
      have := gen_parent_rows_length 3 [] [] s prows seen s1 hg
      simpa using this
    refine ⟨prows, _, rfl, hlen, ?_, ?_, ?_⟩
    · have hpw := gen_parent_rows_pairwise (by simp) 3 [] [] s prows seen s1 hg
        (by simp) (by simp)
      rw [List.pairwise_map] at hpw ⊢
      refine hpw.imp ?_
      intro a b hne heq
      apply hne
      simp only [lookupTuple, List.map_cons, List.map_nil, heq]
    · rw [gen_child_rows_length, hlen]
    · intro i j ci hi hj hci
      have hmem : ci ∈ prows := List.get?_mem hci
      have hsome : (List.lookup "id" ci).isSome := by
        rcases gen_parent_rows_mem 3 [] [] s prows seen s1 hg ci hmem with h0 | ⟨t0, ht0⟩
        · simp at h0
        · rw [ht0]
          exact gen_row_lookup_isSome (by decide) t0
      obtain ⟨v, hv⟩ := Option.isSome_iff_exists.mp hsome
      obtain ⟨t1, ht1⟩ := gen_child_rows_get? orderCols [("customer_id", "id")] 2 prows s1
        i j ci hj hci
      refine ⟨v, _, hv, ht1, ?_⟩
      exact build_child_row_lookup_copy (by decide) hv orderCols [] t1 (Or.inl (by decide))

/-- C1 witness: the identity stream completes the Customer-first run with
the claimed shape. -/
theorem C1_end_to_end_witness :
    ∃ crows orows, outW = [("Customer", crows), ("Order", orows)]
      ∧ crows.length = 3
      ∧ (crows.map (fun r => List.lookup "id" r)).Pairwise (· ≠ ·)
      ∧ orows.length = 6
      ∧ (∀ i j ci, i < 3 → j < 2 → crows.get? i = some ci →
          ∃ v oi, List.lookup "id" ci = some v
            ∧ orows.get? (i * 2 + j) = some oi
            ∧ List.lookup "customer_id" oi = some v) :=
  C1_end_to_end sW outW (by decide)

/-- C1 counterexample: a directory holding exactly the two scenario files
but listing the Order file first selects `Order` as parent (its columns also
contain `id`), and the run succeeds with only 3 Order rows — not the 6 the
claim promises for every two-file directory with these declarations. -/
theorem C1_counterexample :
    main_cli filesOC "id" 3 "Order=2" "customer_id=id" sW = .ok outOC
    ∧ ((List.lookup "Order" outOC).getD []).length = 3
    ∧ ¬((List.lookup "Order" outOC).getD []).length = 6 := by
  refine ⟨by decide, by decide, by decide⟩
